import Mathlib

/-!
# Token authorization service of eventnative

A shallow embedding of `authorization/service.go` (token parsing, source
resolution, the token store) together with the parts of the Go standard
library it relies on (`strings`, `unicode`, `encoding/json`), of
`events/s2s_preprocessor.go` and of `logging/rolling_writer.go`.

Go strings are modelled by `String` (a sequence of Unicode code points, that
is, valid UTF-8), Go maps by association lists with one entry per key, and a
nil slice is identified with the empty slice (both are `[]`).
-/

deriving instance DecidableEq for Except

namespace EventNative

/-! ## Package `unicode` -/

namespace unicode

/-- Go `unicode.IsSpace`: the Latin-1 white space characters
`\t \n \v \f \r`, space, U+0085, U+00A0, and beyond Latin-1 the characters
with the Unicode property White_Space. -/
def IsSpace (r : Char) : Bool :=
  let n := r.toNat
  if n ≤ 0xFF then
    n == 0x09 || n == 0x0A || n == 0x0B || n == 0x0C || n == 0x0D || n == 0x20
      || n == 0x85 || n == 0xA0
  else
    n == 0x1680 || (0x2000 ≤ n && n ≤ 0x200A) || n == 0x2028 || n == 0x2029
      || n == 0x202F || n == 0x205F || n == 0x3000

end unicode

/-! ## Package `strings` -/

namespace strings

/-- Go `strings.TrimSpace`: the string without its leading and trailing
white space, as defined by `unicode.IsSpace`. -/
def TrimSpace (s : String) : String :=
  ⟨(s.data.dropWhile unicode.IsSpace).rdropWhile unicode.IsSpace⟩

/-- Go `strings.HasPrefix`. -/
def HasPrefix (s p : String) : Bool :=
  p.data.isPrefixOf s.data

/-- Go `strings.TrimPrefix`: `s` without the leading `p`, or `s` itself when
`s` does not start with `p`. It is not called by `service.go`; it states what
"the string with its prefix stripped" is. -/
def TrimPrefix (s p : String) : String :=
  if HasPrefix s p then ⟨s.data.drop p.length⟩ else s

/-- Go `strings.HasSuffix`. -/
def HasSuffix (s p : String) : Bool :=
  p.data.reverse.isPrefixOf s.data.reverse

/-- Whether `sub` starts at some position of `s`. -/
def containsAt (sub : List Char) : List Char → Bool
  | [] => sub.isEmpty
  | c :: cs => sub.isPrefixOf (c :: cs) || containsAt sub cs

/-- Go `strings.Contains`. -/
def Contains (s substr : String) : Bool :=
  containsAt substr.data s.data

/-- The replacement loop of `strings.Replace` for a non-empty `old`: `skip`
counts the characters of a matched occurrence that are still to be dropped,
`n` the replacements that are still allowed. -/
def replaceLoop (old new : List Char) : Nat → Nat → List Char → List Char
  | _, _, [] => []
  | skip + 1, n, _ :: cs => replaceLoop old new skip n cs
  | 0, 0, c :: cs => c :: cs
  | 0, n + 1, c :: cs =>
    if old.isPrefixOf (c :: cs) then new ++ replaceLoop old new (old.length - 1) n cs
    else c :: replaceLoop old new 0 (n + 1) cs

/-- Go `strings.Replace(s, old, new, n)` for a non-empty `old`: the first `n`
non-overlapping occurrences of `old` are replaced by `new`; a negative `n`
replaces all of them. -/
def Replace (s old new : String) (n : Int) : String :=
  if old = new ∨ n = 0 then s
  else ⟨replaceLoop old.data new.data 0 (if n < 0 then s.length else n.toNat) s.data⟩

/-- The loop of `strings.Fields`: `cur` holds the characters of the field
being read, last first. -/
def fieldsLoop : List Char → List Char → List String
  | [], cur => if cur.isEmpty then [] else [⟨cur.reverse⟩]
  | c :: cs, cur =>
    if unicode.IsSpace c then
      if cur.isEmpty then fieldsLoop cs [] else ⟨cur.reverse⟩ :: fieldsLoop cs []
    else fieldsLoop cs (c :: cur)

/-- Go `strings.Fields`: the maximal runs of characters that are not white
space. -/
def Fields (s : String) : List String := fieldsLoop s.data []

end strings

/-! ## Go maps -/

/-- A Go `map[string]V`: an association list. The operations below keep at
most one entry per key; the order of the entries has no meaning. -/
abbrev GoMap (V : Type) := List (String × V)

namespace GoMap

variable {V : Type}

/-- The map literal `map[string]V{}`. -/
def empty : GoMap V := []

/-- The lookup `v, ok := m[k]` (without the zero value for a missing key). -/
def get? : GoMap V → String → Option V
  | [], _ => none
  | (k', v) :: m, k => if k' = k then some v else get? m k

/-- The assignment `m[k] = v`: overwrites the entry of `k` or adds one. -/
def set : GoMap V → String → V → GoMap V
  | [], k, v => [(k, v)]
  | (k', v') :: m, k, v => if k' = k then (k, v) :: m else (k', v') :: set m k v

/-- The keys of the map. -/
def keys (m : GoMap V) : List String := m.map Prod.fst

/-- Go `len(m)` for a map with one entry per key. -/
def len (m : GoMap V) : Nat := m.length

end GoMap

/-- The token mapping `map[string][]string`: token value to origins. -/
abbrev TokenMap := GoMap (List String)

/-! ## Package `encoding/json` -/

namespace json

/-- A JSON text after the scanner of `encoding/json` has accepted it: string
escapes are resolved, a number keeps its literal, an object keeps its members
in the order and with the repetitions of the text. -/
inductive Value where
  | null
  | bool (b : Bool)
  | number (literal : String)
  | string (s : String)
  | array (elems : List Value)
  | object (members : List (String × Value))

/-- JSON white space. -/
def isSpace (c : Char) : Bool :=
  c == ' ' || c == '\t' || c == '\r' || c == '\n'

/-- Skips JSON white space. -/
def skipSpace (cs : List Char) : List Char := cs.dropWhile isSpace

/-- Value of a hexadecimal digit. -/
def hexVal (c : Char) : Option Nat :=
  if '0' ≤ c ∧ c ≤ '9' then some (c.toNat - '0'.toNat)
  else if 'a' ≤ c ∧ c ≤ 'f' then some (c.toNat - 'a'.toNat + 10)
  else if 'A' ≤ c ∧ c ≤ 'F' then some (c.toNat - 'A'.toNat + 10)
  else none

/-- Go `getu4`: the code unit of a leading `\uXXXX` escape. -/
def getu4 : List Char → Option (Nat × List Char)
  | '\\' :: 'u' :: a :: b :: c :: d :: rest =>
    match hexVal a, hexVal b, hexVal c, hexVal d with
    | some x, some y, some z, some w => some (((x * 16 + y) * 16 + z) * 16 + w, rest)
    | _, _, _, _ => none
  | _ => none

/-- Reads a string literal after its opening quote and resolves its escapes
as Go `unquote` does: a valid surrogate pair gives one character, any other
surrogate gives U+FFFD; a control character or an unknown escape is refused.
Returns the string and the text after the closing quote. The accumulator
holds the characters read so far, last first. -/
def scanString : Nat → List Char → List Char → Option (String × List Char)
  | 0, _, _ => none
  | _ + 1, [], _ => none
  | fuel + 1, c :: cs, acc =>
    if c = '"' then some (⟨acc.reverse⟩, cs)
    else if c = '\\' then
      match cs with
      | '"' :: rest => scanString fuel rest ('"' :: acc)
      | '\\' :: rest => scanString fuel rest ('\\' :: acc)
      | '/' :: rest => scanString fuel rest ('/' :: acc)
      | 'b' :: rest => scanString fuel rest (Char.ofNat 8 :: acc)
      | 'f' :: rest => scanString fuel rest (Char.ofNat 12 :: acc)
      | 'n' :: rest => scanString fuel rest ('\n' :: acc)
      | 'r' :: rest => scanString fuel rest ('\r' :: acc)
      | 't' :: rest => scanString fuel rest ('\t' :: acc)
      | 'u' :: _ =>
        match getu4 (c :: cs) with
        | none => none
        | some (rr, rest) =>
          if 0xD800 ≤ rr ∧ rr < 0xE000 then
            match getu4 rest with
            | some (rr1, rest1) =>
              if rr < 0xDC00 ∧ 0xDC00 ≤ rr1 ∧ rr1 < 0xE000 then
                scanString fuel rest1
                  (Char.ofNat ((rr - 0xD800) * 0x400 + (rr1 - 0xDC00) + 0x10000) :: acc)
              else scanString fuel rest (Char.ofNat 0xFFFD :: acc)
            | none => scanString fuel rest (Char.ofNat 0xFFFD :: acc)
          else scanString fuel rest (Char.ofNat rr :: acc)
      | _ => none
    else if c.toNat < 0x20 then none
    else scanString fuel cs (c :: acc)

/-- Splits off the leading decimal digits. -/
def digits (cs : List Char) : List Char × List Char := cs.span Char.isDigit

/-- Reads a number literal: `-`? (`0` | `1-9` digits) (`.` digits+)?
(`e|E` (`+`|`-`)? digits+)?. -/
def scanNumber (cs : List Char) : Option (String × List Char) :=
  let (sign, cs1) := match cs with
    | '-' :: r => (['-'], r)
    | _ => ([], cs)
  let intPart : Option (List Char × List Char) := match cs1 with
    | '0' :: r => some (['0'], r)
    | c :: r => if c.isDigit then some (c :: (digits r).1, (digits r).2) else none
    | [] => none
  match intPart with
  | none => none
  | some (ip, cs2) =>
    let frac : Option (List Char × List Char) := match cs2 with
      | '.' :: r => if (digits r).1.isEmpty then none else some ('.' :: (digits r).1, (digits r).2)
      | _ => some ([], cs2)
    match frac with
    | none => none
    | some (fp, cs3) =>
      let ex : Option (List Char × List Char) := match cs3 with
        | e :: r =>
          if e = 'e' ∨ e = 'E' then
            let (sg, r1) := match r with
              | '+' :: r1 => (['+'], r1)
              | '-' :: r1 => (['-'], r1)
              | _ => ([], r)
            if (digits r1).1.isEmpty then none
            else some (e :: sg ++ (digits r1).1, (digits r1).2)
          else some ([], cs3)
        | [] => some ([], cs3)
      match ex with
      | none => none
      | some (ep, cs4) => some (⟨sign ++ ip ++ fp ++ ep⟩, cs4)

mutual
/-- Reads one JSON value at the head of the text. -/
def scanValue : Nat → List Char → Option (Value × List Char)
  | 0, _ => none
  | fuel + 1, cs =>
    match cs with
    | 'n' :: 'u' :: 'l' :: 'l' :: rest => some (.null, rest)
    | 't' :: 'r' :: 'u' :: 'e' :: rest => some (.bool true, rest)
    | 'f' :: 'a' :: 'l' :: 's' :: 'e' :: rest => some (.bool false, rest)
    | '"' :: rest =>
      match scanString (rest.length + 1) rest [] with
      | some (s, r) => some (.string s, r)
      | none => none
    | '[' :: rest =>
      match skipSpace rest with
      | ']' :: r => some (.array [], r)
      | r => scanElems fuel r []
    | '\x7b' :: rest =>
      match skipSpace rest with
      | '\x7d' :: r => some (.object [], r)
      | r => scanMembers fuel r []
    | _ =>
      match scanNumber cs with
      | some (s, r) => some (.number s, r)
      | none => none
/-- Reads the elements of an array after its `[`, one value is expected at
the head of the text. -/
def scanElems : Nat → List Char → List Value → Option (Value × List Char)
  | 0, _, _ => none
  | fuel + 1, cs, acc =>
    match scanValue fuel cs with
    | none => none
    | some (v, rest) =>
      match skipSpace rest with
      | ',' :: r => scanElems fuel (skipSpace r) (v :: acc)
      | ']' :: r => some (.array (v :: acc).reverse, r)
      | _ => none
/-- Reads the members of an object after its opening brace, one key is
expected at the head of the text. -/
def scanMembers : Nat → List Char → List (String × Value) → Option (Value × List Char)
  | 0, _, _ => none
  | fuel + 1, cs, acc =>
    match cs with
    | '"' :: rest =>
      match scanString (rest.length + 1) rest [] with
      | none => none
      | some (k, r) =>
        match skipSpace r with
        | ':' :: r1 =>
          match scanValue fuel (skipSpace r1) with
          | none => none
          | some (v, r2) =>
            match skipSpace r2 with
            | ',' :: r3 => scanMembers fuel (skipSpace r3) ((k, v) :: acc)
            | '\x7d' :: r3 => some (.object ((k, v) :: acc).reverse, r3)
            | _ => none
        | _ => none
    | _ => none
end

/-- The payload as one JSON value surrounded by white space, `none` when
`checkValid` of `encoding/json` reports an error of the text. (The nesting
limit of recent Go releases is not modelled.) -/
def parse (b : String) : Option Value :=
  match scanValue (2 * b.length + 2) (skipSpace b.data) with
  | some (v, rest) => if (skipSpace rest).isEmpty then some v else none
  | none => none

/-- The field name folding of `encoding/json` (`equalFoldRight`, chosen for a
field name that contains `k` or `s`): `s` is the ASCII field name, `t` the
member name of the text. An ASCII character of `t` has to be the same
character or the same letter in the other case; the Kelvin sign U+212A stands
for `k` and the long s U+017F for `s`. -/
def equalFoldRight : List Char → List Char → Bool
  | [], t => t.isEmpty
  | _ :: _, [] => false
  | sb :: s, tb :: t =>
    (if tb.toNat < 0x80 then sb == tb || (sb.isAlpha && sb.toUpper == tb.toUpper)
     else ((sb == 's' || sb == 'S') && tb.toNat == 0x17F)
       || ((sb == 'k' || sb == 'K') && tb.toNat == 0x212A))
    && equalFoldRight s t

/-- Whether the member name `key` selects the struct field tagged `name`: an
exact match, or else a match under folding. -/
def fieldMatches (name key : String) : Bool :=
  key == name || equalFoldRight name.data key.data

/-- Decoding a JSON value into a Go `string` that holds `old`. The flag is
false when an `UnmarshalTypeError` was recorded; decoding goes on after such
an error and the target keeps its value. `null` leaves the target as it is. -/
def decodeString (old : String) : Value → String × Bool
  | .string s => (s, true)
  | .null => (old, true)
  | _ => (old, false)

/-- Decoding the elements of a JSON array into a slice that holds `old`:
element `i` is decoded into `old[i]` when the slice has one and into a new
zero element otherwise, and the slice ends up with one element per element of
the array. (Spare capacity of `old` is not modelled: it only shows when a
member name occurs three times in one object.) -/
def decodeSlice {α : Type} (dec : α → Value → α × Bool) (zero : α) :
    List α → List Value → List α × Bool
  | _, [] => ([], true)
  | old, e :: es =>
    let r := dec (old.headD zero) e
    let rs := decodeSlice dec zero old.tail es
    (r.1 :: rs.1, r.2 && rs.2)

/-- Decoding a JSON value into a Go `[]string` that holds `old`: `null` gives
the nil slice, an array is decoded element by element, anything else is a
type error. -/
def decodeStrings (old : List String) : Value → List String × Bool
  | .array es => decodeSlice decodeString "" old es
  | .null => ([], true)
  | _ => (old, false)

end json

/-! ## `authorization/service.go` -/

/-- The struct `Token` with its JSON tags `token` and `origins`. -/
structure Token where
  Value : String
  Origins : List String
  deriving DecidableEq, Repr

namespace json

/-- Decoding one member of a JSON object into a `Token`: the member named
`token` goes to `Value`, the member named `origins` to `Origins`, any other
member is skipped. -/
def decodeMember (t : Token × Bool) (m : String × Value) : Token × Bool :=
  if fieldMatches "token" m.1 then
    let r := decodeString t.1.Value m.2
    ({ t.1 with Value := r.1 }, t.2 && r.2)
  else if fieldMatches "origins" m.1 then
    let r := decodeStrings t.1.Origins m.2
    ({ t.1 with Origins := r.1 }, t.2 && r.2)
  else t

/-- Decoding a JSON value into a `Token` that holds `old`: the members of an
object are decoded in the order of the text, `null` leaves the struct as it
is, anything else is a type error. -/
def decodeToken (old : Token) : Value → Token × Bool
  | .object ms => ms.foldl decodeMember (old, true)
  | .null => (old, true)
  | _ => (old, false)

/-- Decoding a JSON value into a `[]Token` that holds `old`. -/
def decodeTokens (old : List Token) : Value → List Token × Bool
  | .array es => decodeSlice decodeToken ⟨"", []⟩ old es
  | .null => ([], true)
  | _ => (old, false)

/-- Go `json.Unmarshal(b, &tokens)` for `tokens []Token`: the value of
`tokens` after the call, and whether the returned error is nil. A text that
is not JSON leaves `tokens` untouched; type errors are reported after the
whole text has been decoded, so `tokens` then holds what could be decoded. -/
def UnmarshalTokens (b : String) (tokens : List Token) : List Token × Bool :=
  match parse b with
  | none => (tokens, false)
  | some v => decodeTokens tokens v

/-- Go `json.Unmarshal(b, &strTokens)` for `strTokens []string`. -/
def UnmarshalStrings (b : String) (strTokens : List String) : List String × Bool :=
  match parse b with
  | none => (strTokens, false)
  | some v => decodeStrings strTokens v

end json

/-- The errors of the package. -/
inductive Error where
  /-- Go: `Error unmarshalling tokens from %s. Payload must be json array or
  string array: %v` -/
  | unmarshalling (source : String)
  /-- Go: `server.server.auth_reload_sec can't be empty` -/
  | emptyReloadSec
  /-- Go: `Error loading server.auth tokens: %v` -/
  | loadingC2S (cause : Error)
  /-- Go: `Error loading server.s2s_auth tokens: %v` -/
  | loadingS2S (cause : Error)
  /-- An error of a byte source, reported by `Watcher`. -/
  | source (msg : String)
  deriving DecidableEq, Repr

/-- The loop `for _, tokenObj := range tokens` of `parseFromBytes`. -/
def tokensToMap (tokens : List Token) : TokenMap :=
  tokens.foldl
    (fun tokensOrigins tokenObj =>
      let trimmed := strings.TrimSpace tokenObj.Value
      if trimmed ≠ "" then tokensOrigins.set trimmed tokenObj.Origins else tokensOrigins)
    GoMap.empty

/-- Go `parseFromBytes(source, b)`. -/
def parseFromBytes (source : String) (b : String) : Except Error TokenMap :=
  let (tokens, ok) := json.UnmarshalTokens b []
  if ok then .ok (tokensToMap tokens)
  else
    -- try to unmarshal into []string
    let (strTokens, ok) := json.UnmarshalStrings b []
    if ok then
      .ok (tokensToMap (tokens ++ strTokens.map (fun t => { Value := t, Origins := [] })))
    else .error (.unmarshalling source)

/-- Go `loadFromConfig(viperKey)`; `GetStringSlice` is `viper.GetStringSlice`. -/
def loadFromConfig (GetStringSlice : String → List String) (viperKey : String) :
    Except Error TokenMap :=
  let tokensArr := GetStringSlice viperKey
  .ok (tokensArr.foldl
    (fun tokensOrigins t =>
      let trimmed := strings.TrimSpace t
      if trimmed ≠ "" then tokensOrigins.set trimmed [] else tokensOrigins)
    GoMap.empty)

/-- The struct `Service`: the two token mappings (the embedded lock has no
content of its own). -/
structure Service where
  c2STokens : TokenMap
  s2STokens : TokenMap
  deriving DecidableEq, Repr

namespace Service

/-- Go `(*Service).GetC2SOrigins`: the origins and the found flag; a missing
token gives the nil slice and `false`. -/
def GetC2SOrigins (s : Service) (token : String) : List String × Bool :=
  match s.c2STokens.get? token with
  | some origins => (origins, true)
  | none => ([], false)

/-- Go `(*Service).GetS2SOrigins`. -/
def GetS2SOrigins (s : Service) (token : String) : List String × Bool :=
  match s.s2STokens.get? token with
  | some origins => (origins, true)
  | none => ([], false)

/-- Go `(*Service).GetAllTokens`: the two `range` loops, each taken in the
order of the entries. -/
def GetAllTokens (s : Service) : GoMap Bool :=
  let result : GoMap Bool := GoMap.empty
  let result := s.c2STokens.keys.foldl (fun result k => result.set k true) result
  s.s2STokens.keys.foldl (fun result k => result.set k true) result

/-- Go `(*Service).updateC2STokens`. -/
def updateC2STokens (s : Service) (c2sTokens : TokenMap) : Service :=
  { s with c2STokens := c2sTokens }

/-- Go `(*Service).updateS2STokens`. -/
def updateS2STokens (s : Service) (s2sTokens : TokenMap) : Service :=
  { s with s2STokens := s2sTokens }

end Service

/-- The byte sources of package `resources` that `load` hands to `Watcher`. -/
inductive LoadFunc where
  | LoadFromHttp
  | LoadFromFile
  deriving DecidableEq, Repr

/-- The update callbacks that `NewService` hands to `load`. -/
inductive UpdateFunc where
  | updateC2STokens
  | updateS2STokens
  deriving DecidableEq, Repr

/-- What `service.go` uses from outside the file, over a state `σ` of the
outside world (network, files, scheduled tasks, random source).
`GetInt`, `GetString` and `GetStringSlice` are the readers of `viper`;
`Watcher` is the function `Watcher(source, loadFunc, updateFunc, reloadSec)`
of this package, which loads the source once, returns the mapping or the
error of that load and keeps reloading in the background; `uuidNew` is
`uuid.New().String()`. -/
structure Externals (σ : Type) where
  GetInt : String → Int
  GetString : String → String
  GetStringSlice : String → List String
  Watcher : String → LoadFunc → UpdateFunc → Int → σ → Except Error TokenMap × σ
  uuidNew : σ → String × σ

variable {σ : Type}

/-- Go `load(viperKey, updateFunc, reloadSec)`. -/
def load (ext : Externals σ) (viperKey : String) (updateFunc : UpdateFunc) (reloadSec : Int)
    (w : σ) : Except Error TokenMap × σ :=
  let authSource := ext.GetString viperKey
  if strings.Contains authSource "http://" || strings.Contains authSource "https://" then
    ext.Watcher authSource .LoadFromHttp updateFunc reloadSec w
  else if strings.Contains authSource "file://" then
    ext.Watcher (strings.Replace authSource "file://" "" 1) .LoadFromFile updateFunc reloadSec w
  else if strings.HasPrefix authSource "[" && strings.HasSuffix authSource "]" then
    (parseFromBytes "app config json array" authSource, w)
  else
    (loadFromConfig ext.GetStringSlice viperKey, w)

/-- Go `NewService()`: the store or the error, and the outside world after
the call (the log line of the generated token is left out). -/
def NewService (ext : Externals σ) (w : σ) : Except Error Service × σ :=
  let reloadSec := ext.GetInt "server.server.auth_reload_sec"
  if reloadSec = 0 then (.error .emptyReloadSec, w)
  else
    match load ext "server.auth" .updateC2STokens reloadSec w with
    | (.error err, w) => (.error (.loadingC2S err), w)
    | (.ok c2sTokens, w) =>
      match load ext "server.s2s_auth" .updateS2STokens reloadSec w with
      | (.error err, w) => (.error (.loadingS2S err), w)
      | (.ok s2sTokens, w) =>
        if c2sTokens.len = 0 ∧ s2sTokens.len = 0 then
          -- autogenerated
          let (generatedToken, w) := ext.uuidNew w
          (.ok { c2STokens := c2sTokens.set generatedToken [],
                 s2STokens := s2sTokens.set generatedToken [] }, w)
        else (.ok { c2STokens := c2sTokens, s2STokens := s2sTokens }, w)

/-! ## `events/s2s_preprocessor.go` -/

/-- A Go value held in an `interface{}`: the nil interface, the values that
JSON decoding produces (`bool`, `float64` given by its decimal text,
`string`, `[]interface{}`, `map[string]interface{}`), or a value of any other
type, given by the name of its type and its printed form. A map is taken by
value: two entries never share one map object. -/
inductive Any where
  | nil
  | bool (b : Bool)
  | float64 (text : String)
  | string (s : String)
  | slice (elems : List Any)
  | map (entries : List (String × Any))
  | other (goType text : String)

/-- The dynamic type of a value, as a runtime panic prints it. -/
def Any.typeName : Any → String
  | .nil => "nil"
  | .bool _ => "bool"
  | .float64 _ => "float64"
  | .string _ => "string"
  | .slice _ => "[]interface \x7b\x7d"
  | .map _ => "map[string]interface \x7b\x7d"
  | .other goType _ => goType

/-- The type `Fact`, a `map[string]interface{}`; the nil map is `none` where
a fact is passed. -/
abbrev Fact := GoMap Any

/-- What `s2s_preprocessor.go` uses from outside the file: the constants
`ipKey` and `uaKey` of package `events`, `geo.GeoDataKey`,
`useragent.ParsedUaKey`, and the function `extractIp` on requests. -/
structure Package (Request : Type) where
  ipKey : String
  uaKey : String
  GeoDataKey : String
  ParsedUaKey : String
  extractIp : Request → String

/-- The struct `S2SPreprocessor`: `geoResolver.Resolve` returns the geo data
and an optional error, `uaResolver.Resolve` the parsed user agent. Both
resolvers lie outside the file and are taken as functions that return. -/
structure S2SPreprocessor where
  geoResolver : String → Any × Option String
  uaResolver : String → Any

/-- What `Preprocess` does to the outside: the calls of the two resolvers and
of `logging.Error`, with their arguments. -/
inductive Effect where
  | geoResolve (ip : String)
  | uaResolve (ua : String)
  | loggingError (err : String)
  deriving DecidableEq, Repr

/-- How a call of `Preprocess` ends: `return fact, nil`, `return nil, err`, or
a runtime panic. -/
inductive Outcome where
  | returned
  | failed (err : String)
  | panicked (msg : String)
  deriving DecidableEq, Repr

/-- A call of `Preprocess`: the fact of the caller after the call (the map is
changed in place, so the changes made before a panic stay), how the call
ended, and the effects in their order. -/
structure Run where
  fact : Option Fact
  outcome : Outcome
  effects : List Effect

variable {Request : Type}

/-- The geo block of `Preprocess` on the device context: the context
afterwards and the effects, or the message of the panic raised by the type
assertion `ip.(string)`. -/
def geoBlock (p : Package Request) (s2sp : S2SPreprocessor) (deviceCtxObject : GoMap Any) :
    Except String (GoMap Any × List Effect) :=
  -- geo.GeoDataKey node overwrite geo resolving
  match deviceCtxObject.get? p.GeoDataKey with
  | some _ => .ok (deviceCtxObject, [])
  | none =>
    match deviceCtxObject.get? "ip" with
    | none => .ok (deviceCtxObject, [])
    | some (.string ip) =>
      let (geoData, err) := s2sp.geoResolver ip
      .ok (deviceCtxObject.set p.GeoDataKey geoData,
        .geoResolve ip :: (match err with
          | some e => [.loggingError e]
          | none => []))
    | some v =>
      .error ("interface conversion: interface \x7b\x7d is " ++ v.typeName ++ ", not string")

/-- The user agent block of `Preprocess` on the device context. -/
def uaBlock (p : Package Request) (s2sp : S2SPreprocessor) (deviceCtxObject : GoMap Any) :
    GoMap Any × List Effect :=
  -- useragent.ParsedUaKey node overwrite useragent resolving
  match deviceCtxObject.get? p.ParsedUaKey with
  | some _ => (deviceCtxObject, [])
  | none =>
    match deviceCtxObject.get? p.uaKey with
    | some (.string uaStr) =>
      (deviceCtxObject.set p.ParsedUaKey (s2sp.uaResolver uaStr), [.uaResolve uaStr])
    | _ => (deviceCtxObject, [])

/-- The fact after the first writes of `Preprocess`: `src`, and the address
of the request when it has one. -/
def stampSource (p : Package Request) (fact : Fact) (r : Request) : Fact :=
  let fact := fact.set "src" (.string "s2s")
  let ip := p.extractIp r
  if ip ≠ "" then fact.set p.ipKey (.string ip) else fact

/-- Go `(*S2SPreprocessor).Preprocess(fact, r)`. -/
def S2SPreprocessor.Preprocess (p : Package Request) (s2sp : S2SPreprocessor)
    (fact : Option Fact) (r : Request) : Run :=
  match fact with
  | none => { fact := none, outcome := .failed "Input fact can\x27t be nil", effects := [] }
  | some fact =>
    let fact := fact.set "src" (.string "s2s")
    let ip := p.extractIp r
    let fact := if ip ≠ "" then fact.set p.ipKey (.string ip) else fact
    match fact.get? "device_ctx" with
    | some (.map deviceCtxObject) =>
      match geoBlock p s2sp deviceCtxObject with
      | .error msg => { fact := some fact, outcome := .panicked msg, effects := [] }
      | .ok (deviceCtxObject, geoEffects) =>
        let (deviceCtxObject, uaEffects) := uaBlock p s2sp deviceCtxObject
        { fact := some (fact.set "device_ctx" (.map deviceCtxObject)),
          outcome := .returned,
          effects := geoEffects ++ uaEffects }
    | _ => { fact := some fact, outcome := .returned, effects := [] }

/-! ## `logging/rolling_writer.go` -/

namespace logging

/-- The struct `Config` of `global_logger.go`. -/
structure Config where
  FileName : String
  FileDir : String
  RotationMin : Int
  MaxBackups : Int
  Compress : Bool
  RotateOnClose : Bool
  deriving DecidableEq, Repr

/-- Go `Config.Validate`: the error, if any. -/
def Config.Validate (c : Config) : Option String :=
  if c.FileName = "" then some "Logger file name can\x27t be empty"
  else if c.FileDir = "" then some "Logger file dir can\x27t be empty"
  else none

/-- The constant `twentyFourHoursInMinutes`. -/
def twentyFourHoursInMinutes : Int := 1440

/-- A call made on the `lumberjack.Logger`. -/
inductive LoggerCall where
  | Write (p : String)
  | Rotate
  | Close
  deriving DecidableEq, Repr

/-- The struct `RollingWriterProxy`: the `lumberjack.Logger` is held as the
calls made on it so far, oldest first (its file name and size settings have
no part in when `Rotate` is called); `records` is a `uint64`. -/
structure RollingWriterProxy where
  lWriter : List LoggerCall
  rotateOnClose : Bool
  records : Nat
  deriving DecidableEq, Repr

/-- Go `time.Duration(min) * time.Minute`: nanoseconds in an `int64`, with
its wrap-around. -/
def minutes (min : Int) : Int :=
  (min * 60000000000 + 2 ^ 63) % 2 ^ 64 - 2 ^ 63

/-- Go `NewRollingWriter(config)`: the proxy and the period of the ticker in
nanoseconds, or the panic of `time.NewTicker` for a period that is not
positive. The ticker goroutine is the operation `tick` below. -/
def NewRollingWriter (config : Config) : Except String (RollingWriterProxy × Int) :=
  let rwp : RollingWriterProxy :=
    { lWriter := [], records := 0, rotateOnClose := config.RotateOnClose }
  let rotationMin := if config.RotationMin = 0 then twentyFourHoursInMinutes else config.RotationMin
  let rotation := minutes rotationMin
  if rotation ≤ 0 then .error "non-positive interval for NewTicker" else .ok (rwp, rotation)

/-- One round of the ticker goroutine started by `NewRollingWriter`:
`atomic.SwapUint64(&rwp.records, 0) > 0` decides whether `Rotate` is called. -/
def RollingWriterProxy.tick (rwp : RollingWriterProxy) : RollingWriterProxy :=
  let old := rwp.records
  let rwp := { rwp with records := 0 }
  if old > 0 then { rwp with lWriter := rwp.lWriter ++ [.Rotate] } else rwp

/-- Go `(*RollingWriterProxy).Write(p)`; the result of the logger is left
out. -/
def RollingWriterProxy.Write (rwp : RollingWriterProxy) (p : String) : RollingWriterProxy :=
  { rwp with records := (rwp.records + 1) % 2 ^ 64, lWriter := rwp.lWriter ++ [.Write p] }

/-- Go `(*RollingWriterProxy).Close()`; the result of the logger is left
out. -/
def RollingWriterProxy.Close (rwp : RollingWriterProxy) : RollingWriterProxy :=
  let rwp := if rwp.rotateOnClose then { rwp with lWriter := rwp.lWriter ++ [.Rotate] } else rwp
  { rwp with lWriter := rwp.lWriter ++ [.Close] }

/-- An operation on the proxy: a call of `Write`, a tick of the timer, a
call of `Close`. -/
inductive Op where
  | Write (p : String)
  | Tick
  | Close
  deriving DecidableEq, Repr

/-- One operation, taken as one atomic step. -/
def RollingWriterProxy.step (rwp : RollingWriterProxy) : Op → RollingWriterProxy
  | .Write p => rwp.Write p
  | .Tick => rwp.tick
  | .Close => rwp.Close

/-- A sequence of operations, in order. -/
def RollingWriterProxy.run (rwp : RollingWriterProxy) (ops : List Op) : RollingWriterProxy :=
  ops.foldl RollingWriterProxy.step rwp

/-- Whether a record has been written since the last `Rotate` of the calls
(or since creation); `written` is the answer before the calls. -/
def writtenSince : List LoggerCall → Bool → Bool
  | [], written => written
  | .Write _ :: calls, _ => writtenSince calls true
  | .Rotate :: calls, _ => writtenSince calls false
  | .Close :: calls, written => writtenSince calls written

/-- The rule of the doc comment, "Rotate() only if file isn't empty", on the
calls made on the logger: every `Rotate` comes after a `Write` that no other
`Rotate` follows. -/
def rotatesOnlyNonEmpty : List LoggerCall → Bool → Bool
  | [], _ => true
  | .Write _ :: calls, _ => rotatesOnlyNonEmpty calls true
  | .Rotate :: calls, written => written && rotatesOnlyNonEmpty calls false
  | .Close :: calls, written => rotatesOnlyNonEmpty calls written

end logging

/-- Example constants of the packages: `source_ip`, `user_agent`, `location`,
`parsed_ua`; a request is given by its remote address. -/
def examplePackage : Package String where
  ipKey := "source_ip"
  uaKey := "user_agent"
  GeoDataKey := "location"
  ParsedUaKey := "parsed_ua"
  extractIp := fun r => r

/-- Example resolvers: the geo resolver fails on the empty address. -/
def exampleS2SPreprocessor : S2SPreprocessor where
  geoResolver := fun ip =>
    if ip = "" then (.other "*geo.Data" "<nil>", some "empty ip")
    else (.other "*geo.Data" ip, none)
  uaResolver := fun ua => .other "*useragent.ResolvedUa" ua

/-- The fact `{"device_ctx": {"ip": "1.2.3.4", "location": "given",
"user_agent": "ua", "parsed_ua": "given"}}`. -/
def exampleProvidedFact : Fact :=
  [("device_ctx", .map [("ip", .string "1.2.3.4"), ("location", .string "given"),
    ("user_agent", .string "ua"), ("parsed_ua", .string "given")])]

/-- The fact `{"device_ctx": {"ip": 123}}`. -/
def exampleNumberIpFact : Fact := [("device_ctx", .map [("ip", .float64 "123")])]

/-- The fact `{"event": "click", "device_ctx": {"ip": true}}`. -/
def exampleBoolIpFact : Fact :=
  [("event", .string "click"), ("device_ctx", .map [("ip", .bool true)])]

/-- A configuration with rotation on close and one without. -/
def exampleConfig (rotateOnClose : Bool) : logging.Config :=
  { FileName := "events", FileDir := "/var/log", RotationMin := 0, MaxBackups := 0,
    Compress := false, RotateOnClose := rotateOnClose }

/-! ## Example inputs -/

/-- The payload
`[{"token":" tok1 ","origins":["a.com"]},{"token":"tok2"},{"token":"tok1","origins":[" b.com"]},{"token":"  "}]`. -/
def exampleTokenPayload : String :=
  "[\x7b\"token\":\" tok1 \",\"origins\":[\"a.com\"]\x7d,\x7b\"token\":\"tok2\"\x7d,\x7b\"token\":\"tok1\",\"origins\":[\" b.com\"]\x7d,\x7b\"token\":\"  \"\x7d]"

/-- The payload `["a", " b", "", "a"]`. -/
def exampleStringPayload : String := "[\"a\", \" b\", \"\", \"a\"]"

/-- Example externals over a world without state: the reload interval and
the two token sources are given as strings, a string read as a list is split
at white space (as `viper.GetStringSlice` does with a string value),
`Watcher` fails and reports the source it was handed, the generated token is
`generated`. -/
def exampleExt (reloadSec : Int) (c2s s2s : String) : Externals Unit where
  GetInt := fun key => if key = "server.server.auth_reload_sec" then reloadSec else 0
  GetString := fun key =>
    if key = "server.auth" then c2s else if key = "server.s2s_auth" then s2s else ""
  GetStringSlice := fun key =>
    strings.Fields
      (if key = "server.auth" then c2s else if key = "server.s2s_auth" then s2s else "")
  Watcher := fun source _ _ _ w => (.error (.source source), w)
  uuidNew := fun w => ("generated", w)

/-- The source `[{"token":"tok1","origins":["a.com"]}]`. -/
def exampleInlineSource : String :=
  "[\x7b\"token\":\"tok1\",\"origins\":[\"a.com\"]\x7d]"

/-- The source `[{"token":"tok1","origins":["https://a.com"]}]`: a JSON
array whose origin holds `https://`. -/
def exampleMarkerSource : String :=
  "[\x7b\"token\":\"tok1\",\"origins\":[\"https://a.com\"]\x7d]"

/-- Example externals like `exampleExt`, with a `Watcher` whose load succeeds
and yields the mapping `served`. -/
def exampleServedExt (reloadSec : Int) (c2s s2s : String) (served : TokenMap) :
    Externals Unit where
  GetInt := fun key => if key = "server.server.auth_reload_sec" then reloadSec else 0
  GetString := fun key =>
    if key = "server.auth" then c2s else if key = "server.s2s_auth" then s2s else ""
  GetStringSlice := fun key =>
    strings.Fields
      (if key = "server.auth" then c2s else if key = "server.s2s_auth" then s2s else "")
  Watcher := fun _ _ _ _ w => (.ok served, w)
  uuidNew := fun w => ("generated", w)

/-! ## Facts about Go maps -/

namespace GoMap

variable {V : Type}

theorem get?_set (m : GoMap V) (k k' : String) (v : V) :
    (m.set k v).get? k' = if k = k' then some v else m.get? k' := by
  induction m with
  | nil => simp [set, get?]
  | cons e m ih =>
    obtain ⟨a, b⟩ := e
    by_cases h : a = k
    · subst h
      by_cases h2 : a = k' <;> simp [set, get?, h2]
    · by_cases h2 : a = k'
      · subst h2
        have h3 : ¬ k = a := fun h4 => h h4.symm
        simp [set, get?, h, h3]
      · simp [set, get?, h, h2, ih]

theorem get?_set_self (m : GoMap V) (k : String) (v : V) : (m.set k v).get? k = some v := by
  simp [get?_set]

theorem get?_set_ne (m : GoMap V) {k k' : String} (v : V) (h : k ≠ k') :
    (m.set k v).get? k' = m.get? k' := by
  simp [get?_set, h]

theorem mem_keys_iff (m : GoMap V) (k : String) : k ∈ m.keys ↔ ∃ v, m.get? k = some v := by
  induction m with
  | nil => simp [keys, get?]
  | cons e m ih =>
    obtain ⟨a, b⟩ := e
    by_cases h : a = k
    · simp [keys, get?, h]
    · have h2 : ¬ k = a := fun h3 => h h3.symm
      have ih2 : k ∈ List.map Prod.fst m ↔ ∃ v, get? m k = some v := ih
      simp [keys, get?, h, h2, ih2]

theorem not_mem_keys_iff (m : GoMap V) (k : String) : k ∉ m.keys ↔ m.get? k = none := by
  rw [mem_keys_iff]
  cases m.get? k <;> simp

theorem mem_keys_set (m : GoMap V) (k k' : String) (v : V) :
    k' ∈ (m.set k v).keys ↔ k' = k ∨ k' ∈ m.keys := by
  rw [mem_keys_iff, mem_keys_iff, get?_set]
  by_cases h : k = k'
  · simp [h]
  · have h2 : ¬ k' = k := fun h3 => h h3.symm
    simp [h, h2]

theorem nodup_keys_set (m : GoMap V) (k : String) (v : V) (h : m.keys.Nodup) :
    (m.set k v).keys.Nodup := by
  induction m with
  | nil => simp [set, keys]
  | cons e m ih =>
    obtain ⟨a, b⟩ := e
    have h1 : a ∉ keys m ∧ (keys m).Nodup := by simpa [keys] using h
    by_cases h2 : a = k
    · subst h2
      simpa [set, keys] using h
    · have h3 : a ∉ (set m k v).keys := by
        rw [mem_keys_set]
        exact fun h4 => h4.elim h2 h1.1
      have h4 : (keys (set m k v)).Nodup := ih h1.2
      have h5 : (a :: keys (set m k v)).Nodup := List.nodup_cons.mpr ⟨h3, h4⟩
      simpa [set, h2, keys] using h5

/-- Keys after a loop `for _, k := range ks { m[k] = v }`. -/
theorem mem_keys_foldl_set (ks : List String) (v : V) (acc : GoMap V) (k : String) :
    k ∈ (ks.foldl (fun r a => r.set a v) acc).keys ↔ k ∈ acc.keys ∨ k ∈ ks := by
  induction ks generalizing acc with
  | nil => simp
  | cons a ks ih =>
    rw [List.foldl_cons, ih, mem_keys_set, List.mem_cons]
    constructor
    · rintro ((h | h) | h)
      · exact Or.inr (Or.inl h)
      · exact Or.inl h
      · exact Or.inr (Or.inr h)
    · rintro (h | h | h)
      · exact Or.inl (Or.inr h)
      · exact Or.inl (Or.inl h)
      · exact Or.inr h

theorem nodup_keys_foldl_set (ks : List String) (v : V) (acc : GoMap V) (h : acc.keys.Nodup) :
    (ks.foldl (fun r a => r.set a v) acc).keys.Nodup := by
  induction ks generalizing acc with
  | nil => simpa using h
  | cons a ks ih =>
    rw [List.foldl_cons]
    exact ih _ (nodup_keys_set acc a v h)

theorem get?_foldl_set (ks : List String) (v : V) (acc : GoMap V) (k : String) :
    (ks.foldl (fun r a => r.set a v) acc).get? k = if k ∈ ks then some v else acc.get? k := by
  induction ks using List.reverseRecOn with
  | nil => simp
  | append_singleton ks a ih =>
    rw [List.foldl_append, List.foldl_cons, List.foldl_nil, get?_set, ih]
    by_cases h : a = k
    · simp [h]
    · have h2 : ¬ k = a := fun h3 => h h3.symm
      simp [h, h2]

end GoMap

/-! ## Facts about lists: the last element with a property -/

theorem lastSplit_snoc_of_not {α : Type} (P R : α → Prop) (ts : List α) (t : α) (h : ¬ P t) :
    (∃ pre x post, ts ++ [t] = pre ++ x :: post ∧ P x ∧ R x ∧ ∀ u ∈ post, ¬ P u) ↔
    (∃ pre x post, ts = pre ++ x :: post ∧ P x ∧ R x ∧ ∀ u ∈ post, ¬ P u) := by
  constructor
  · rintro ⟨pre, x, post, heq, hP, hR, hpost⟩
    rcases List.eq_nil_or_concat post with rfl | ⟨L, b, rfl⟩
    · have h1 := List.append_inj' heq rfl
      have h2 : t = x := by simpa using h1.2
      exact absurd (h2 ▸ hP) h
    · simp only [List.concat_eq_append] at heq hpost
      have h0 : pre ++ x :: (L ++ [b]) = (pre ++ x :: L) ++ [b] := by simp
      rw [h0] at heq
      have h1 := List.append_inj' heq rfl
      refine ⟨pre, x, L, h1.1, hP, hR, fun u hu => hpost u ?_⟩
      exact List.mem_append.mpr (Or.inl hu)
  · rintro ⟨pre, x, post, heq, hP, hR, hpost⟩
    refine ⟨pre, x, post ++ [t], by simp [heq], hP, hR, fun u hu => ?_⟩
    rcases List.mem_append.mp hu with h1 | h1
    · exact hpost u h1
    · rw [List.mem_singleton.mp h1]
      exact h

theorem lastSplit_snoc_of_pos {α : Type} (P R : α → Prop) (ts : List α) (t : α) (h : P t) :
    (∃ pre x post, ts ++ [t] = pre ++ x :: post ∧ P x ∧ R x ∧ ∀ u ∈ post, ¬ P u) ↔ R t := by
  constructor
  · rintro ⟨pre, x, post, heq, _, hR, hpost⟩
    rcases List.eq_nil_or_concat post with rfl | ⟨L, b, rfl⟩
    · have h1 := List.append_inj' heq rfl
      have h2 : t = x := by simpa using h1.2
      exact h2 ▸ hR
    · simp only [List.concat_eq_append] at heq hpost
      have h0 : pre ++ x :: (L ++ [b]) = (pre ++ x :: L) ++ [b] := by simp
      rw [h0] at heq
      have h1 := List.append_inj' heq rfl
      have h2 : t = b := by simpa using h1.2
      exact absurd (h2 ▸ h) (hpost b (List.mem_append.mpr (Or.inr (List.mem_singleton.mpr rfl))))
  · intro hR
    exact ⟨ts, t, [], rfl, h, hR, fun u hu => by simp at hu⟩

/-! ## The loop of `parseFromBytes` -/

theorem tokensToMap_nil : tokensToMap [] = [] := rfl

theorem tokensToMap_snoc (ts : List Token) (t : Token) :
    tokensToMap (ts ++ [t]) =
      if strings.TrimSpace t.Value ≠ "" then
        (tokensToMap ts).set (strings.TrimSpace t.Value) t.Origins
      else tokensToMap ts := by
  simp [tokensToMap, List.foldl_append]

theorem mem_keys_tokensToMap (tokens : List Token) (k : String) :
    k ∈ (tokensToMap tokens).keys ↔ k ≠ "" ∧ ∃ t ∈ tokens, strings.TrimSpace t.Value = k := by
  induction tokens using List.reverseRecOn with
  | nil => simp [tokensToMap_nil, GoMap.keys]
  | append_singleton ts t ih =>
    rw [tokensToMap_snoc]
    by_cases h : strings.TrimSpace t.Value = ""
    · rw [if_neg (not_not.mpr h), ih]
      constructor
      · rintro ⟨hk, u, hu, hku⟩
        exact ⟨hk, u, List.mem_append.mpr (Or.inl hu), hku⟩
      · rintro ⟨hk, u, hu, hku⟩
        rcases List.mem_append.mp hu with h1 | h1
        · exact ⟨hk, u, h1, hku⟩
        · rw [List.mem_singleton.mp h1, h] at hku
          exact absurd hku.symm hk
    · rw [if_pos h, GoMap.mem_keys_set, ih]
      constructor
      · rintro (h1 | ⟨hk, u, hu, hku⟩)
        · exact ⟨h1 ▸ h, t, List.mem_append.mpr (Or.inr (List.mem_singleton.mpr rfl)), h1.symm⟩
        · exact ⟨hk, u, List.mem_append.mpr (Or.inl hu), hku⟩
      · rintro ⟨hk, u, hu, hku⟩
        rcases List.mem_append.mp hu with h1 | h1
        · exact Or.inr ⟨hk, u, h1, hku⟩
        · rw [List.mem_singleton.mp h1] at hku
          exact Or.inl hku.symm

theorem nodup_keys_tokensToMap (tokens : List Token) : (tokensToMap tokens).keys.Nodup := by
  induction tokens using List.reverseRecOn with
  | nil => simp [tokensToMap_nil, GoMap.keys]
  | append_singleton ts t ih =>
    rw [tokensToMap_snoc]
    by_cases h : strings.TrimSpace t.Value = ""
    · rw [if_neg (not_not.mpr h)]
      exact ih
    · rw [if_pos h]
      exact GoMap.nodup_keys_set _ _ _ ih

theorem get?_tokensToMap (tokens : List Token) (k : String) (o : List String) :
    (tokensToMap tokens).get? k = some o ↔
      k ≠ "" ∧ ∃ pre t post, tokens = pre ++ t :: post ∧ strings.TrimSpace t.Value = k ∧
        t.Origins = o ∧ ∀ u ∈ post, strings.TrimSpace u.Value ≠ k := by
  induction tokens using List.reverseRecOn with
  | nil => simp [tokensToMap_nil, GoMap.get?]
  | append_singleton ts t ih =>
    rw [tokensToMap_snoc]
    by_cases hk : strings.TrimSpace t.Value = k
    · by_cases h : k = ""
      · subst h
        rw [if_neg (not_not.mpr hk), ih]
        simp
      · have h1 : strings.TrimSpace t.Value ≠ "" := hk ▸ h
        rw [if_pos h1, hk, GoMap.get?_set_self,
          lastSplit_snoc_of_pos (fun u => strings.TrimSpace u.Value = k) (fun u => u.Origins = o)
            ts t hk]
        simp [h]
    · have h2 : (if strings.TrimSpace t.Value ≠ "" then
          (tokensToMap ts).set (strings.TrimSpace t.Value) t.Origins
          else tokensToMap ts).get? k = (tokensToMap ts).get? k := by
        by_cases h : strings.TrimSpace t.Value = ""
        · rw [if_neg (not_not.mpr h)]
        · rw [if_pos h, GoMap.get?_set_ne _ _ hk]
      rw [h2, ih,
        lastSplit_snoc_of_not (fun u => strings.TrimSpace u.Value = k) (fun u => u.Origins = o)
          ts t hk]

/-! ## Decoding of the two payload forms -/

theorem decodeSlice_strings (strs : List String) :
    json.decodeSlice json.decodeString "" [] (strs.map json.Value.string) = (strs, true) := by
  induction strs with
  | nil => rfl
  | cons s ss ih => simp [json.decodeSlice, json.decodeString, ih]

theorem decodeSlice_tokens_of_strings (strs : List String) :
    json.decodeSlice json.decodeToken ⟨"", []⟩ [] (strs.map json.Value.string) =
      (List.replicate strs.length ⟨"", []⟩, strs.isEmpty) := by
  induction strs with
  | nil => rfl
  | cons s ss ih => simp [json.decodeSlice, json.decodeToken, ih, List.replicate_succ]

/-- An array of objects with a string member `token` and a member `origins`
that is an array of strings decodes, without error, into the tokens with
these values and origins. -/
theorem decodeTokens_token_objects (entries : List (String × List String)) :
    json.decodeTokens [] (.array (entries.map (fun e =>
        json.Value.object
          [("token", .string e.1), ("origins", .array (e.2.map json.Value.string))])))
      = (entries.map (fun e => ({ Value := e.1, Origins := e.2 } : Token)), true) := by
  have hf1 : json.fieldMatches "token" "token" = true := by decide
  have hf2 : json.fieldMatches "token" "origins" = false := by decide
  have hf3 : json.fieldMatches "origins" "origins" = true := by decide
  simp only [json.decodeTokens]
  induction entries with
  | nil => rfl
  | cons e es ih =>
    simp [json.decodeSlice, json.decodeToken, json.decodeMember, json.decodeString,
      json.decodeStrings, hf1, hf2, hf3, decodeSlice_strings, ih]

theorem TrimSpace_empty : strings.TrimSpace "" = "" := by decide

/-- The tokens that `parseFromBytes` builds from a payload of plain strings:
the zero tokens left by the first decoding, then one token per string. -/
theorem origins_nil_of_strings (strs : List String) (n : Nat) (t : Token)
    (ht : t ∈ List.replicate n (⟨"", []⟩ : Token) ++
      strs.map (fun s => ({ Value := s, Origins := [] } : Token))) :
    t.Origins = [] ∧ (strings.TrimSpace t.Value ≠ "" → t.Value ∈ strs) := by
  rcases List.mem_append.mp ht with h | h
  · rw [(List.mem_replicate.mp h).2]
    exact ⟨rfl, fun h1 => absurd TrimSpace_empty h1⟩
  · obtain ⟨s, hs, rfl⟩ := List.mem_map.mp h
    exact ⟨rfl, fun _ => hs⟩

/-! ## The claims about `parseFromBytes` -/

/-- C1: for a payload that decodes as an array of token objects,
`parseFromBytes` succeeds; the keys of the mapping are exactly the trimmed,
non-empty token values; every key has one entry; a key maps to the origins,
copied as they are, of the last token whose trimmed value is that key; and
when the trimmed values are pairwise distinct every token with a non-empty
trimmed value maps to its own origins. -/
theorem parseFromBytes_token_objects (source b : String) (tokens : List Token)
    (h : json.UnmarshalTokens b [] = (tokens, true)) :
    ∃ m, parseFromBytes source b = .ok m ∧
      (∀ k, k ∈ m.keys ↔ k ≠ "" ∧ ∃ t ∈ tokens, strings.TrimSpace t.Value = k) ∧
      m.keys.Nodup ∧
      (∀ k o, m.get? k = some o ↔
        k ≠ "" ∧ ∃ pre t post, tokens = pre ++ t :: post ∧ strings.TrimSpace t.Value = k ∧
          t.Origins = o ∧ ∀ u ∈ post, strings.TrimSpace u.Value ≠ k) ∧
      (tokens.Pairwise (fun t u => strings.TrimSpace t.Value ≠ strings.TrimSpace u.Value) →
        ∀ t ∈ tokens, strings.TrimSpace t.Value ≠ "" →
          m.get? (strings.TrimSpace t.Value) = some t.Origins) := by
  refine ⟨tokensToMap tokens, by simp [parseFromBytes, h], mem_keys_tokensToMap tokens,
    nodup_keys_tokensToMap tokens, get?_tokensToMap tokens, ?_⟩
  intro hp t ht hne
  obtain ⟨pre, post, rfl⟩ := List.append_of_mem ht
  rw [get?_tokensToMap]
  refine ⟨hne, pre, t, post, rfl, rfl, rfl, fun u hu => ?_⟩
  have h1 := (List.pairwise_append.mp hp).2.1
  exact fun h2 => (List.pairwise_cons.mp h1).1 u hu h2.symm

/-- C1, at the payload `exampleTokenPayload`: four token objects, two of
them with the trimmed value `tok1`, one with a blank value. -/
theorem parseFromBytes_token_objects_witness :
    json.UnmarshalTokens exampleTokenPayload [] =
        ([⟨" tok1 ", ["a.com"]⟩, ⟨"tok2", []⟩, ⟨"tok1", [" b.com"]⟩, ⟨"  ", []⟩], true) ∧
      parseFromBytes "src" exampleTokenPayload = .ok [("tok1", [" b.com"]), ("tok2", [])] ∧
      ∃ m, parseFromBytes "src" exampleTokenPayload = .ok m ∧
        (∀ k, k ∈ m.keys ↔ k ≠ "" ∧
          ∃ t ∈ [(⟨" tok1 ", ["a.com"]⟩ : Token), ⟨"tok2", []⟩, ⟨"tok1", [" b.com"]⟩, ⟨"  ", []⟩],
            strings.TrimSpace t.Value = k) ∧
        m.keys.Nodup ∧
        (∀ k o, m.get? k = some o ↔
          k ≠ "" ∧ ∃ pre t post,
            [(⟨" tok1 ", ["a.com"]⟩ : Token), ⟨"tok2", []⟩, ⟨"tok1", [" b.com"]⟩, ⟨"  ", []⟩]
              = pre ++ t :: post ∧ strings.TrimSpace t.Value = k ∧
            t.Origins = o ∧ ∀ u ∈ post, strings.TrimSpace u.Value ≠ k) ∧
        (List.Pairwise (fun t u => strings.TrimSpace t.Value ≠ strings.TrimSpace u.Value)
            [(⟨" tok1 ", ["a.com"]⟩ : Token), ⟨"tok2", []⟩, ⟨"tok1", [" b.com"]⟩, ⟨"  ", []⟩] →
          ∀ t ∈ [(⟨" tok1 ", ["a.com"]⟩ : Token), ⟨"tok2", []⟩, ⟨"tok1", [" b.com"]⟩, ⟨"  ", []⟩],
            strings.TrimSpace t.Value ≠ "" →
              m.get? (strings.TrimSpace t.Value) = some t.Origins) :=
  ⟨by rfl, by rfl, parseFromBytes_token_objects "src" exampleTokenPayload _ (by rfl)⟩

/-- C2: for a payload that is a JSON array of plain strings, `parseFromBytes`
succeeds; the keys of the mapping are exactly the trimmed, non-empty strings
of the array, each once; every key maps to the empty origins and no other
key is present. -/
theorem parseFromBytes_plain_strings (source b : String) (strs : List String)
    (h : json.parse b = some (.array (strs.map json.Value.string))) :
    ∃ m, parseFromBytes source b = .ok m ∧
      (∀ k, k ∈ m.keys ↔ k ≠ "" ∧ ∃ s ∈ strs, strings.TrimSpace s = k) ∧
      m.keys.Nodup ∧
      (∀ k ∈ m.keys, m.get? k = some []) ∧
      (∀ k, k ∉ m.keys → m.get? k = none) := by
  have key : ∃ n, parseFromBytes source b = .ok (tokensToMap
      (List.replicate n (⟨"", []⟩ : Token) ++
        strs.map (fun s => ({ Value := s, Origins := [] } : Token)))) := by
    cases strs with
    | nil =>
      refine ⟨0, ?_⟩
      simp [parseFromBytes, json.UnmarshalTokens, h, json.decodeTokens, json.decodeSlice]
    | cons s ss =>
      refine ⟨(s :: ss).length, ?_⟩
      have h1 := decodeSlice_tokens_of_strings (s :: ss)
      have h2 := decodeSlice_strings (s :: ss)
      simp only [parseFromBytes, json.UnmarshalTokens, json.UnmarshalStrings, h,
        json.decodeTokens, json.decodeStrings, h1, h2]
      simp
  obtain ⟨n, hn⟩ := key
  refine ⟨_, hn, fun k => ?_, nodup_keys_tokensToMap _, fun k hk => ?_,
    fun k hk => (GoMap.not_mem_keys_iff _ k).mp hk⟩
  · rw [mem_keys_tokensToMap]
    constructor
    · rintro ⟨hk, t, ht, htk⟩
      exact ⟨hk, t.Value, (origins_nil_of_strings strs n t ht).2 (htk ▸ hk), htk⟩
    · rintro ⟨hk, s, hs, hsk⟩
      exact ⟨hk, ⟨s, []⟩, List.mem_append.mpr (Or.inr (List.mem_map.mpr ⟨s, hs, rfl⟩)), hsk⟩
  · obtain ⟨o, ho⟩ := (GoMap.mem_keys_iff _ k).mp hk
    obtain ⟨_, pre, t, post, heq, _, hto, _⟩ := (get?_tokensToMap _ k o).mp ho
    have ht : t ∈ List.replicate n (⟨"", []⟩ : Token) ++
        strs.map (fun s => ({ Value := s, Origins := [] } : Token)) := by
      rw [heq]
      exact List.mem_append.mpr (Or.inr (List.mem_cons_self t post))
    rw [ho, ← hto, (origins_nil_of_strings strs n t ht).1]

/-- C2, at the payload `["a", " b", "", "a"]`. -/
theorem parseFromBytes_plain_strings_witness :
    json.parse exampleStringPayload
        = some (.array (["a", " b", "", "a"].map json.Value.string)) ∧
      parseFromBytes "src" exampleStringPayload = .ok [("a", []), ("b", [])] ∧
      ∃ m, parseFromBytes "src" exampleStringPayload = .ok m ∧
        (∀ k, k ∈ m.keys ↔ k ≠ "" ∧ ∃ s ∈ ["a", " b", "", "a"], strings.TrimSpace s = k) ∧
        m.keys.Nodup ∧
        (∀ k ∈ m.keys, m.get? k = some []) ∧
        (∀ k, k ∉ m.keys → m.get? k = none) :=
  ⟨by rfl, by rfl, parseFromBytes_plain_strings "src" exampleStringPayload _ (by rfl)⟩

/-- C3: `parseFromBytes` returns an error exactly when the payload decodes
neither as `[]Token` nor as `[]string`, the error names the source, and it
returns a mapping exactly when one of the two decodings succeeds. -/
theorem parseFromBytes_error_iff (source b : String) :
    ((∃ e, parseFromBytes source b = .error e) ↔
      (json.UnmarshalTokens b []).2 = false ∧ (json.UnmarshalStrings b []).2 = false) ∧
    ((∃ m, parseFromBytes source b = .ok m) ↔
      (json.UnmarshalTokens b []).2 = true ∨ (json.UnmarshalStrings b []).2 = true) ∧
    (∀ e, parseFromBytes source b = .error e → e = .unmarshalling source) := by
  unfold parseFromBytes
  rcases json.UnmarshalTokens b [] with ⟨tokens, ok1⟩
  rcases json.UnmarshalStrings b [] with ⟨strTokens, ok2⟩
  cases ok1 <;> cases ok2 <;> simp

/-! ## Facts about package `strings` -/

theorem containsAt_iff (sub s : List Char) :
    strings.containsAt sub s = true ↔ ∃ p q, s = p ++ sub ++ q := by
  induction s with
  | nil =>
    cases sub with
    | nil => simp [strings.containsAt]
    | cons c cs => simp [strings.containsAt]
  | cons c cs ih =>
    simp only [strings.containsAt, Bool.or_eq_true, List.isPrefixOf_iff_prefix, ih]
    constructor
    · rintro (⟨q, hq⟩ | ⟨p, q, hpq⟩)
      · exact ⟨[], q, by simp [hq]⟩
      · exact ⟨c :: p, q, by simp [hpq]⟩
    · rintro ⟨p, q, hpq⟩
      cases p with
      | nil => exact Or.inl ⟨q, by simpa using hpq.symm⟩
      | cons d p =>
        have h := List.cons_eq_cons.mp (by simpa using hpq)
        exact Or.inr ⟨p, q, by simpa using h.2⟩

/-- `strings.Contains` holds exactly when the substring occurs somewhere. -/
theorem Contains_iff (s sub : String) :
    strings.Contains s sub = true ↔ ∃ p q : String, s = p ++ sub ++ q := by
  rw [strings.Contains, containsAt_iff]
  constructor
  · rintro ⟨p, q, h⟩
    exact ⟨⟨p⟩, ⟨q⟩, String.ext (by simpa using h)⟩
  · rintro ⟨p, q, h⟩
    exact ⟨p.data, q.data, by simp [h]⟩

/-- `strings.HasPrefix` holds exactly when the string starts with `p`. -/
theorem HasPrefix_iff (s p : String) :
    strings.HasPrefix s p = true ↔ ∃ q : String, s = p ++ q := by
  rw [strings.HasPrefix, List.isPrefixOf_iff_prefix]
  constructor
  · rintro ⟨q, h⟩
    exact ⟨⟨q⟩, String.ext (by simpa using h.symm)⟩
  · rintro ⟨q, h⟩
    exact ⟨q.data, by simp [h]⟩

/-- `strings.HasSuffix` holds exactly when the string ends with `p`. -/
theorem HasSuffix_iff (s p : String) :
    strings.HasSuffix s p = true ↔ ∃ q : String, s = q ++ p := by
  rw [strings.HasSuffix, List.isPrefixOf_iff_prefix, List.reverse_prefix]
  constructor
  · rintro ⟨q, h⟩
    exact ⟨⟨q⟩, String.ext (by simpa using h.symm)⟩
  · rintro ⟨q, h⟩
    exact ⟨q.data, by simp [h]⟩

theorem replaceLoop_zero (old new : List Char) (skip : Nat) (cs : List Char) :
    strings.replaceLoop old new skip 0 cs = cs.drop skip := by
  induction cs generalizing skip with
  | nil => simp [strings.replaceLoop]
  | cons c cs ih =>
    cases skip with
    | zero => simp [strings.replaceLoop]
    | succ k => simp [strings.replaceLoop, ih]

/-- One replacement: the leftmost occurrence of `old` is the one replaced. -/
theorem replaceLoop_one (old new : List Char) (hold : old ≠ []) (s : List Char)
    (h : strings.containsAt old s = true) :
    ∃ pre post, s = pre ++ old ++ post ∧
      (∀ p q, s = p ++ old ++ q → pre.length ≤ p.length) ∧
      strings.replaceLoop old new 0 1 s = pre ++ new ++ post := by
  induction s with
  | nil =>
    cases old with
    | nil => exact absurd rfl hold
    | cons c cs => simp [strings.containsAt] at h
  | cons c cs ih =>
    by_cases hp : old.isPrefixOf (c :: cs) = true
    · obtain ⟨post, hpost⟩ := List.isPrefixOf_iff_prefix.mp hp
      refine ⟨[], post, by simp [hpost], fun p q _ => Nat.zero_le _, ?_⟩
      have h1 : strings.replaceLoop old new 0 1 (c :: cs)
          = new ++ strings.replaceLoop old new (old.length - 1) 0 cs := by
        simp [strings.replaceLoop, hp]
      rw [h1, replaceLoop_zero]
      cases old with
      | nil => exact absurd rfl hold
      | cons d ds =>
        have h2 : cs = ds ++ post := by
          have := List.cons_eq_cons.mp (by simpa using hpost.symm)
          exact this.2
        simp [h2]
    · have hc : strings.containsAt old cs = true := by
        simpa [strings.containsAt, hp] using h
      obtain ⟨pre, post, heq, hleft, hrep⟩ := ih hc
      refine ⟨c :: pre, post, by simp [heq], fun p q hpq => ?_, ?_⟩
      · cases p with
        | nil =>
          exact absurd (List.isPrefixOf_iff_prefix.mpr ⟨q, by simpa using hpq.symm⟩) hp
        | cons d p =>
          have h2 := List.cons_eq_cons.mp (by simpa using hpq)
          have h3 := hleft p q (by simpa using h2.2)
          simpa using h3
      · have h1 : strings.replaceLoop old new 0 1 (c :: cs)
            = c :: strings.replaceLoop old new 0 1 cs := by
          simp [strings.replaceLoop, hp]
        rw [h1, hrep]
        simp

/-! ## The claims about `load` -/

/-- C4: `load` selects one strategy, in this order: `Watcher` with
`LoadFromHttp` and the whole string as source when the string contains
`http://` or `https://`; else `Watcher` with `LoadFromFile` when it contains
`file://`; else `parseFromBytes` on the string itself, with the outside world
untouched (no `Watcher`, no update callback), when it starts with `[` and
ends with `]`; else `loadFromConfig`, with the outside world untouched. -/
theorem load_strategy (ext : Externals σ) (viperKey : String) (updateFunc : UpdateFunc)
    (reloadSec : Int) (w : σ) :
    ((strings.Contains (ext.GetString viperKey) "http://" = true ∨
        strings.Contains (ext.GetString viperKey) "https://" = true) →
      load ext viperKey updateFunc reloadSec w
        = ext.Watcher (ext.GetString viperKey) .LoadFromHttp updateFunc reloadSec w) ∧
    (strings.Contains (ext.GetString viperKey) "http://" = false →
      strings.Contains (ext.GetString viperKey) "https://" = false →
      strings.Contains (ext.GetString viperKey) "file://" = true →
      load ext viperKey updateFunc reloadSec w
        = ext.Watcher (strings.Replace (ext.GetString viperKey) "file://" "" 1) .LoadFromFile
            updateFunc reloadSec w) ∧
    (strings.Contains (ext.GetString viperKey) "http://" = false →
      strings.Contains (ext.GetString viperKey) "https://" = false →
      strings.Contains (ext.GetString viperKey) "file://" = false →
      strings.HasPrefix (ext.GetString viperKey) "[" = true →
      strings.HasSuffix (ext.GetString viperKey) "]" = true →
      load ext viperKey updateFunc reloadSec w
        = (parseFromBytes "app config json array" (ext.GetString viperKey), w)) ∧
    (strings.Contains (ext.GetString viperKey) "http://" = false →
      strings.Contains (ext.GetString viperKey) "https://" = false →
      strings.Contains (ext.GetString viperKey) "file://" = false →
      ¬ (strings.HasPrefix (ext.GetString viperKey) "[" = true ∧
          strings.HasSuffix (ext.GetString viperKey) "]" = true) →
      load ext viperKey updateFunc reloadSec w
        = (loadFromConfig ext.GetStringSlice viperKey, w)) := by
  refine ⟨?_, ?_, ?_, ?_⟩
  · intro h
    have h1 : (strings.Contains (ext.GetString viperKey) "http://"
        || strings.Contains (ext.GetString viperKey) "https://") = true := by
      simpa using h
    simp [load, h1]
  · intro h1 h2 h3
    simp [load, h1, h2, h3]
  · intro h1 h2 h3 h4 h5
    simp [load, h1, h2, h3, h4, h5]
  · intro h1 h2 h3 h4
    have h5 : (strings.HasPrefix (ext.GetString viperKey) "["
        && strings.HasSuffix (ext.GetString viperKey) "]") = false := by
      simpa using h4
    simp only [load, h1, h2, h3, h5]
    simp

/-- C4, at four sources: an inline array with an `https://` origin goes to
`Watcher` with `LoadFromHttp`, `file:///etc/tokens.json` to `Watcher` with
`LoadFromFile`, `["a"]` is parsed in place, `tok1 tok2` is read as a
configured list. -/
theorem load_strategy_witness :
    load (exampleExt 5 "[\"https://a.com\"]" "") "server.auth" .updateC2STokens 5 ()
        = (.error (.source "[\"https://a.com\"]"), ()) ∧
      load (exampleExt 5 "[\"a\"]" "") "server.auth" .updateC2STokens 5 ()
        = (.ok [("a", [])], ()) ∧
      load (exampleExt 5 "tok1 tok2" "") "server.auth" .updateC2STokens 5 ()
        = (.ok [("tok1", []), ("tok2", [])], ()) ∧
      load (exampleExt 5 "file:///etc/tokens.json" "") "server.auth" .updateC2STokens 5 ()
        = (exampleExt 5 "file:///etc/tokens.json" "").Watcher
            (strings.Replace "file:///etc/tokens.json" "file://" "" 1) .LoadFromFile
            .updateC2STokens 5 () :=
  ⟨by rfl, by rfl, by rfl,
    (load_strategy (exampleExt 5 "file:///etc/tokens.json" "") "server.auth"
      .updateC2STokens 5 ()).2.1 (by decide) (by decide) (by decide)⟩

/-- C5 as stated fails: for the source `a file://b`, which contains `file://`
and neither `http://` nor `https://`, the path handed to the file loader is
`a b`, while the source with its prefix `file://` stripped is the source
itself. -/
theorem load_file_path_not_prefix_stripped :
    strings.Contains "a file://b" "file://" = true ∧
      strings.Contains "a file://b" "http://" = false ∧
      strings.Contains "a file://b" "https://" = false ∧
      load (exampleExt 5 "a file://b" "") "server.auth" .updateC2STokens 5 ()
        = (exampleExt 5 "a file://b" "").Watcher "a b" .LoadFromFile .updateC2STokens 5 () ∧
      load (exampleExt 5 "a file://b" "") "server.auth" .updateC2STokens 5 ()
        ≠ (exampleExt 5 "a file://b" "").Watcher (strings.TrimPrefix "a file://b" "file://")
            .LoadFromFile .updateC2STokens 5 () := by
  decide

/-- C5, amended: for a source that contains `file://` and neither `http://`
nor `https://`, the path handed to the file loader is the source with its
leftmost occurrence of `file://` removed; when the source starts with
`file://` this is the source with that prefix stripped. -/
theorem load_file_path (ext : Externals σ) (viperKey : String) (updateFunc : UpdateFunc)
    (reloadSec : Int) (w : σ)
    (h1 : strings.Contains (ext.GetString viperKey) "http://" = false)
    (h2 : strings.Contains (ext.GetString viperKey) "https://" = false)
    (h3 : strings.Contains (ext.GetString viperKey) "file://" = true) :
    ∃ pre post : String,
      ext.GetString viperKey = pre ++ "file://" ++ post ∧
      (∀ p q : String, ext.GetString viperKey = p ++ "file://" ++ q → pre.length ≤ p.length) ∧
      load ext viperKey updateFunc reloadSec w
        = ext.Watcher (pre ++ post) .LoadFromFile updateFunc reloadSec w ∧
      (strings.HasPrefix (ext.GetString viperKey) "file://" = true →
        pre = "" ∧ pre ++ post = strings.TrimPrefix (ext.GetString viperKey) "file://") := by
  obtain ⟨pre, post, heq, hleft, hrep⟩ :=
    replaceLoop_one "file://".data "".data (by decide) (ext.GetString viperKey).data h3
  have hsrc : ext.GetString viperKey = (⟨pre⟩ : String) ++ "file://" ++ ⟨post⟩ :=
    String.ext (by simpa using heq)
  have hlen : ∀ p q : String, ext.GetString viperKey = p ++ "file://" ++ q →
      (⟨pre⟩ : String).length ≤ p.length := by
    intro p q hpq
    have := hleft p.data q.data (by simp [hpq])
    simpa using this
  refine ⟨⟨pre⟩, ⟨post⟩, hsrc, hlen, ?_, fun hp => ?_⟩
  · have hr : strings.Replace (ext.GetString viperKey) "file://" "" 1
        = (⟨pre⟩ : String) ++ ⟨post⟩ := by
      have h0 : ¬ ("file://" = "" ∨ (1 : Int) = 0) := by decide
      simp only [strings.Replace, if_neg h0]
      apply String.ext
      have h4 : ¬ ((1 : Int) < 0) := by decide
      have h5 : (1 : Int).toNat = 1 := rfl
      rw [if_neg h4, h5, hrep]
      simp
    simp [load, h1, h2, h3, hr]
  · obtain ⟨q, hq⟩ := (HasPrefix_iff _ _).mp hp
    have h5 := hlen "" q (by simpa using hq)
    have h6 : pre = [] := List.eq_nil_of_length_eq_zero (Nat.le_zero.mp (by simpa using h5))
    subst h6
    refine ⟨rfl, ?_⟩
    simp only [strings.TrimPrefix, hp, if_true]
    apply String.ext
    rw [hsrc]
    have hl : "file://".length = 7 := rfl
    simp only [String.data_append, List.nil_append, hl]
    rfl

/-- C5, amended, at the sources `file:///etc/tokens.json` and `a file://b`. -/
theorem load_file_path_witness :
    load (exampleExt 5 "file:///etc/tokens.json" "") "server.auth" .updateC2STokens 5 ()
        = (.error (.source "/etc/tokens.json"), ()) ∧
      ∃ pre post : String,
        "a file://b" = pre ++ "file://" ++ post ∧
        (∀ p q : String, "a file://b" = p ++ "file://" ++ q → pre.length ≤ p.length) ∧
        load (exampleExt 5 "a file://b" "") "server.auth" .updateC2STokens 5 ()
          = (exampleExt 5 "a file://b" "").Watcher (pre ++ post) .LoadFromFile
              .updateC2STokens 5 () ∧
        (strings.HasPrefix "a file://b" "file://" = true →
          pre = "" ∧ pre ++ post = strings.TrimPrefix "a file://b" "file://") :=
  ⟨by rfl,
    load_file_path (exampleExt 5 "a file://b" "") "server.auth" .updateC2STokens 5 ()
      (by decide) (by decide) (by decide)⟩

/-! ## The claims about the store -/

/-- C6 as stated fails: with the reload interval -1 and the inline sources
`["tok1"]` and `[]`, `NewService` returns a store. -/
theorem NewService_negative_interval :
    (exampleExt (-1) "[\"tok1\"]" "[]").GetInt "server.server.auth_reload_sec" ≤ 0 ∧
      NewService (exampleExt (-1) "[\"tok1\"]" "[]") ()
        = (.ok { c2STokens := [("tok1", [])], s2STokens := [] }, ()) := by
  decide

/-- C6, amended: when the configured reload interval is zero (absent or
zero), `NewService` fails with the error of the empty interval, whatever the
sources and the other externals are, and the outside world is untouched (no
source is loaded). -/
theorem NewService_zero_interval (ext : Externals σ) (w : σ)
    (h : ext.GetInt "server.server.auth_reload_sec" = 0) :
    NewService ext w = (.error .emptyReloadSec, w) := by
  simp [NewService, h]

/-- C6, amended, at the interval 0 with a valid inline source. -/
theorem NewService_zero_interval_witness :
    (exampleExt 0 "[\"tok1\"]" "[]").GetInt "server.server.auth_reload_sec" = 0 ∧
      NewService (exampleExt 0 "[\"tok1\"]" "[]") () = (.error .emptyReloadSec, ()) :=
  ⟨by decide, NewService_zero_interval (exampleExt 0 "[\"tok1\"]" "[]") () (by decide)⟩

/-- C7: when both initial loads succeed with empty mappings, `NewService`
returns a store whose `GetAllTokens` has the generated token `g` as its only
key; both lookups find `g` with empty origins and find no other token. -/
theorem NewService_fallback (ext : Externals σ) (w w1 w2 : σ) (c2sTokens s2sTokens : TokenMap)
    (hsec : ext.GetInt "server.server.auth_reload_sec" ≠ 0)
    (h1 : load ext "server.auth" .updateC2STokens
      (ext.GetInt "server.server.auth_reload_sec") w = (.ok c2sTokens, w1))
    (hc : c2sTokens.len = 0)
    (h2 : load ext "server.s2s_auth" .updateS2STokens
      (ext.GetInt "server.server.auth_reload_sec") w1 = (.ok s2sTokens, w2))
    (hs : s2sTokens.len = 0) :
    ∃ svc, NewService ext w = (.ok svc, (ext.uuidNew w2).2) ∧
      svc.GetAllTokens.keys = [(ext.uuidNew w2).1] ∧
      svc.GetAllTokens.get? (ext.uuidNew w2).1 = some true ∧
      svc.GetC2SOrigins (ext.uuidNew w2).1 = ([], true) ∧
      svc.GetS2SOrigins (ext.uuidNew w2).1 = ([], true) ∧
      ∀ t, t ≠ (ext.uuidNew w2).1 →
        svc.GetC2SOrigins t = ([], false) ∧ svc.GetS2SOrigins t = ([], false) := by
  have hc0 : c2sTokens = [] := List.length_eq_zero.mp hc
  have hs0 : s2sTokens = [] := List.length_eq_zero.mp hs
  subst hc0 hs0
  refine ⟨{ c2STokens := [((ext.uuidNew w2).1, [])], s2STokens := [((ext.uuidNew w2).1, [])] },
    ?_, ?_, ?_, ?_, ?_, ?_⟩
  · simp [NewService, hsec, h1, h2, GoMap.len, GoMap.set]
  · simp [Service.GetAllTokens, GoMap.keys, GoMap.set, GoMap.empty]
  · simp [Service.GetAllTokens, GoMap.keys, GoMap.set, GoMap.empty, GoMap.get?]
  · simp [Service.GetC2SOrigins, GoMap.get?]
  · simp [Service.GetS2SOrigins, GoMap.get?]
  · intro t ht
    have ht2 : ¬ (ext.uuidNew w2).1 = t := fun h => ht h.symm
    simp [Service.GetC2SOrigins, Service.GetS2SOrigins, GoMap.get?, ht2]

/-- C7, at the inline sources `[]` and `[" "]`. -/
theorem NewService_fallback_witness :
    NewService (exampleExt 5 "[]" "[\" \"]") ()
        = (.ok { c2STokens := [("generated", [])], s2STokens := [("generated", [])] }, ()) ∧
      ∃ svc, NewService (exampleExt 5 "[]" "[\" \"]") ()
          = (.ok svc, ((exampleExt 5 "[]" "[\" \"]").uuidNew ()).2) ∧
        svc.GetAllTokens.keys = [((exampleExt 5 "[]" "[\" \"]").uuidNew ()).1] ∧
        svc.GetAllTokens.get? ((exampleExt 5 "[]" "[\" \"]").uuidNew ()).1 = some true ∧
        svc.GetC2SOrigins ((exampleExt 5 "[]" "[\" \"]").uuidNew ()).1 = ([], true) ∧
        svc.GetS2SOrigins ((exampleExt 5 "[]" "[\" \"]").uuidNew ()).1 = ([], true) ∧
        ∀ t, t ≠ ((exampleExt 5 "[]" "[\" \"]").uuidNew ()).1 →
          svc.GetC2SOrigins t = ([], false) ∧ svc.GetS2SOrigins t = ([], false) :=
  ⟨by rfl,
    NewService_fallback (exampleExt 5 "[]" "[\" \"]") () () () [] [] (by decide) (by rfl)
      (by rfl) (by rfl) (by rfl)⟩

/-- C8: after `updateC2STokens(m)` the lookup `GetC2SOrigins(t)` returns
`(m[t], true)` for every key `t` of `m` and `(nil, false)` for every other
token, whatever the store held before; likewise for `updateS2STokens` and
`GetS2SOrigins`. -/
theorem update_replaces_mapping (s : Service) (m : TokenMap) (t : String) :
    (t ∈ m.keys → ∃ o, m.get? t = some o ∧ (s.updateC2STokens m).GetC2SOrigins t = (o, true)) ∧
    (t ∉ m.keys → (s.updateC2STokens m).GetC2SOrigins t = ([], false)) ∧
    (t ∈ m.keys → ∃ o, m.get? t = some o ∧ (s.updateS2STokens m).GetS2SOrigins t = (o, true)) ∧
    (t ∉ m.keys → (s.updateS2STokens m).GetS2SOrigins t = ([], false)) := by
  refine ⟨fun h => ?_, fun h => ?_, fun h => ?_, fun h => ?_⟩
  · obtain ⟨o, ho⟩ := (GoMap.mem_keys_iff m t).mp h
    exact ⟨o, ho, by simp [Service.updateC2STokens, Service.GetC2SOrigins, ho]⟩
  · have ho := (GoMap.not_mem_keys_iff m t).mp h
    simp [Service.updateC2STokens, Service.GetC2SOrigins, ho]
  · obtain ⟨o, ho⟩ := (GoMap.mem_keys_iff m t).mp h
    exact ⟨o, ho, by simp [Service.updateS2STokens, Service.GetS2SOrigins, ho]⟩
  · have ho := (GoMap.not_mem_keys_iff m t).mp h
    simp [Service.updateS2STokens, Service.GetS2SOrigins, ho]

/-- C8, at a store that holds `t1` and is updated with the mapping that
holds `t2`: afterwards `t1` is not found and `t2` is found. -/
theorem update_replaces_mapping_witness :
    ((⟨[("t1", ["a.com"])], []⟩ : Service).updateC2STokens [("t2", ["b.com"])]).GetC2SOrigins "t1"
        = ([], false) ∧
      ((⟨[("t1", ["a.com"])], []⟩ : Service).updateC2STokens [("t2", ["b.com"])]).GetC2SOrigins "t2"
        = (["b.com"], true) ∧
      ∃ o, GoMap.get? ([("t2", ["b.com"])] : TokenMap) "t2" = some o ∧
        ((⟨[("t1", ["a.com"])], []⟩ : Service).updateC2STokens
          [("t2", ["b.com"])]).GetC2SOrigins "t2" = (o, true) :=
  ⟨(update_replaces_mapping ⟨[("t1", ["a.com"])], []⟩ [("t2", ["b.com"])] "t1").2.1 (by decide),
    by rfl,
    (update_replaces_mapping ⟨[("t1", ["a.com"])], []⟩ [("t2", ["b.com"])] "t2").1 (by decide)⟩

/-- C9 as stated fails: the source `exampleMarkerSource` is an inline JSON
array (it starts with `[`, ends with `]`) that parses to the non-empty
mapping of `tok1`, but it contains `https://`, so `load` hands it to
`Watcher` as a URL. When that load fails no store is constructed; when it
yields another mapping the store holds that mapping and the lookup of `tok1`
finds nothing. -/
theorem NewService_inline_array_with_marker :
    strings.HasPrefix exampleMarkerSource "[" = true ∧
      strings.HasSuffix exampleMarkerSource "]" = true ∧
      parseFromBytes "app config json array" exampleMarkerSource
        = .ok [("tok1", ["https://a.com"])] ∧
      GoMap.len ([("tok1", ["https://a.com"])] : TokenMap) ≠ 0 ∧
      NewService (exampleExt 5 exampleMarkerSource "") ()
        = (.error (.loadingC2S (.source exampleMarkerSource)), ()) ∧
      NewService (exampleServedExt 5 exampleMarkerSource "" [("other", [])]) ()
        = (.ok { c2STokens := [("other", [])], s2STokens := [] }, ()) ∧
      Service.GetC2SOrigins { c2STokens := [("other", [])], s2STokens := [] } "tok1"
        = ([], false) := by
  decide

/-- C9, amended: for a store constructed with a c2s source that starts with
`[`, ends with `]`, contains none of `http://`, `https://`, `file://` (so
that `load` parses it in place) and parses to a non-empty mapping `m`,
`GetC2SOrigins(t)` returns `(m[t], true)` for every key `t` of `m` and
`(nil, false)` for every other token. -/
theorem NewService_inline_lookup (ext : Externals σ) (w w2 : σ) (m s2sTokens : TokenMap)
    (hsec : ext.GetInt "server.server.auth_reload_sec" ≠ 0)
    (h1 : strings.Contains (ext.GetString "server.auth") "http://" = false)
    (h2 : strings.Contains (ext.GetString "server.auth") "https://" = false)
    (h3 : strings.Contains (ext.GetString "server.auth") "file://" = false)
    (h4 : strings.HasPrefix (ext.GetString "server.auth") "[" = true)
    (h5 : strings.HasSuffix (ext.GetString "server.auth") "]" = true)
    (hm : parseFromBytes "app config json array" (ext.GetString "server.auth") = .ok m)
    (hne : m.len ≠ 0)
    (hs : load ext "server.s2s_auth" .updateS2STokens
      (ext.GetInt "server.server.auth_reload_sec") w = (.ok s2sTokens, w2)) :
    ∃ svc, NewService ext w = (.ok svc, w2) ∧
      ∀ t, (t ∈ m.keys → ∃ o, m.get? t = some o ∧ svc.GetC2SOrigins t = (o, true)) ∧
        (t ∉ m.keys → svc.GetC2SOrigins t = ([], false)) := by
  have hl : load ext "server.auth" .updateC2STokens
      (ext.GetInt "server.server.auth_reload_sec") w = (.ok m, w) := by
    simp [load, h1, h2, h3, h4, h5, hm]
  refine ⟨{ c2STokens := m, s2STokens := s2sTokens }, ?_, fun t => ⟨fun h => ?_, fun h => ?_⟩⟩
  · simp [NewService, hsec, hl, hs, hne]
  · obtain ⟨o, ho⟩ := (GoMap.mem_keys_iff m t).mp h
    exact ⟨o, ho, by simp [Service.GetC2SOrigins, ho]⟩
  · have ho := (GoMap.not_mem_keys_iff m t).mp h
    simp [Service.GetC2SOrigins, ho]

/-- C9, amended, at the source `[{"token":"tok1","origins":["a.com"]}]`: the lookup of
`tok1` returns `(["a.com"], true)`, the lookup of `unknown` `(nil, false)`. -/
theorem NewService_inline_lookup_witness :
    NewService (exampleExt 5 exampleInlineSource "") ()
        = (.ok { c2STokens := [("tok1", ["a.com"])], s2STokens := [] }, ()) ∧
      Service.GetC2SOrigins { c2STokens := [("tok1", ["a.com"])], s2STokens := [] } "tok1"
        = (["a.com"], true) ∧
      Service.GetC2SOrigins { c2STokens := [("tok1", ["a.com"])], s2STokens := [] } "unknown"
        = ([], false) ∧
      ∃ svc, NewService (exampleExt 5 exampleInlineSource "") () = (.ok svc, ()) ∧
        ∀ t, (t ∈ GoMap.keys ([("tok1", ["a.com"])] : TokenMap) →
            ∃ o, GoMap.get? ([("tok1", ["a.com"])] : TokenMap) t = some o ∧
              svc.GetC2SOrigins t = (o, true)) ∧
          (t ∉ GoMap.keys ([("tok1", ["a.com"])] : TokenMap) →
            svc.GetC2SOrigins t = ([], false)) :=
  ⟨by rfl, by rfl, by rfl,
    NewService_inline_lookup (exampleExt 5 exampleInlineSource "") () ()
      [("tok1", ["a.com"])] [] (by decide) (by rfl) (by rfl) (by rfl) (by rfl) (by rfl)
      (by rfl) (by decide) (by rfl)⟩

/-- C10: the keys of `GetAllTokens()` are the union of the keys of the two
mappings: a token is a key exactly when `GetC2SOrigins` or `GetS2SOrigins`
finds it, every key is listed once, and every key maps to `true`. -/
theorem GetAllTokens_union (s : Service) (t : String) :
    (t ∈ s.GetAllTokens.keys ↔ t ∈ s.c2STokens.keys ∨ t ∈ s.s2STokens.keys) ∧
    (t ∈ s.GetAllTokens.keys ↔
      (s.GetC2SOrigins t).2 = true ∨ (s.GetS2SOrigins t).2 = true) ∧
    s.GetAllTokens.keys.Nodup ∧
    s.GetAllTokens.keys.count t ≤ 1 ∧
    (t ∈ s.GetAllTokens.keys → s.GetAllTokens.get? t = some true) := by
  have hk : t ∈ s.GetAllTokens.keys ↔ t ∈ s.c2STokens.keys ∨ t ∈ s.s2STokens.keys := by
    simp only [Service.GetAllTokens]
    rw [GoMap.mem_keys_foldl_set, GoMap.mem_keys_foldl_set]
    simp [GoMap.empty, GoMap.keys]
  have hn : s.GetAllTokens.keys.Nodup := by
    simp only [Service.GetAllTokens]
    apply GoMap.nodup_keys_foldl_set
    apply GoMap.nodup_keys_foldl_set
    simp [GoMap.empty, GoMap.keys]
  have hc : ∀ m : TokenMap, (match m.get? t with
      | some origins => (origins, true)
      | none => (([] : List String), false)).2 = true ↔ t ∈ m.keys := by
    intro m
    rw [GoMap.mem_keys_iff]
    cases m.get? t <;> simp
  refine ⟨hk, ?_, hn, List.nodup_iff_count_le_one.mp hn t, fun h => ?_⟩
  · rw [hk]
    simp only [Service.GetC2SOrigins, Service.GetS2SOrigins, hc]
  · simp only [Service.GetAllTokens] at h ⊢
    rw [GoMap.mem_keys_foldl_set, GoMap.mem_keys_foldl_set] at h
    rw [GoMap.get?_foldl_set, GoMap.get?_foldl_set]
    rcases h with (h | h) | h
    · simp [GoMap.empty, GoMap.keys] at h
    · simp [h]
    · simp [h]

/-! ## Facts about `strings.TrimSpace` -/

theorem dropWhile_head_not (l : List Char) (a : Char) (rest : List Char)
    (h : l.dropWhile unicode.IsSpace = a :: rest) : ¬ unicode.IsSpace a = true := by
  induction l with
  | nil => simp at h
  | cons x xs ih =>
    by_cases hx : unicode.IsSpace x = true
    · rw [List.dropWhile_cons_of_pos hx] at h
      exact ih h
    · rw [List.dropWhile_cons_of_neg hx] at h
      have hxa : x = a := (List.cons_eq_cons.mp h).1
      exact hxa ▸ hx

theorem trimmed_dropWhile (l : List Char) :
    List.dropWhile unicode.IsSpace
        ((l.dropWhile unicode.IsSpace).rdropWhile unicode.IsSpace)
      = (l.dropWhile unicode.IsSpace).rdropWhile unicode.IsSpace := by
  obtain ⟨r, hr⟩ := List.rdropWhile_prefix unicode.IsSpace (l := l.dropWhile unicode.IsSpace)
  cases ht : (l.dropWhile unicode.IsSpace).rdropWhile unicode.IsSpace with
  | nil => rfl
  | cons a t =>
    rw [ht] at hr
    exact List.dropWhile_cons_of_neg (dropWhile_head_not l a (t ++ r) (by simpa using hr.symm))

/-- Trimming twice is trimming once. -/
theorem TrimSpace_idempotent (s : String) :
    strings.TrimSpace (strings.TrimSpace s) = strings.TrimSpace s := by
  apply String.ext
  simp only [strings.TrimSpace]
  rw [trimmed_dropWhile, List.rdropWhile_idempotent]

/-- A trimmed string neither starts nor ends with white space. -/
theorem TrimSpace_ends (s : String) (c : Char) :
    ((strings.TrimSpace s).data.head? = some c → unicode.IsSpace c = false) ∧
    ((strings.TrimSpace s).data.getLast? = some c → unicode.IsSpace c = false) := by
  constructor
  · intro h
    have h1 := trimmed_dropWhile s.data
    simp only [strings.TrimSpace] at h
    cases ht : (s.data.dropWhile unicode.IsSpace).rdropWhile unicode.IsSpace with
    | nil => simp [ht] at h
    | cons a t =>
      rw [ht] at h h1
      have ha : a = c := by simpa using h
      subst ha
      by_cases hs : unicode.IsSpace a = true
      · rw [List.dropWhile_cons_of_pos hs] at h1
        have h2 := (List.dropWhile_suffix unicode.IsSpace (l := t)).length_le
        rw [h1] at h2
        simp at h2
      · simpa using hs
  · intro h
    simp only [strings.TrimSpace] at h
    by_cases hne : (s.data.dropWhile unicode.IsSpace).rdropWhile unicode.IsSpace = []
    · simp [hne] at h
    · have h1 := List.rdropWhile_last_not unicode.IsSpace (s.data.dropWhile unicode.IsSpace) hne
      rw [List.getLast?_eq_getLast _ hne] at h
      have h2 : ((s.data.dropWhile unicode.IsSpace).rdropWhile unicode.IsSpace).getLast hne
          = c := by simpa using h
      rw [h2] at h1
      simpa using h1

/-! ## The claims about `loadFromConfig` and the keys of a mapping -/

theorem loadFromConfig_eq (GetStringSlice : String → List String) (viperKey : String) :
    loadFromConfig GetStringSlice viperKey
      = .ok (tokensToMap ((GetStringSlice viperKey).map
          (fun t => ({ Value := t, Origins := [] } : Token)))) := by
  simp [loadFromConfig, tokensToMap, List.foldl_map]

theorem parseFromBytes_ok (source b : String) (m : TokenMap)
    (h : parseFromBytes source b = .ok m) : ∃ tokens, m = tokensToMap tokens := by
  unfold parseFromBytes at h
  generalize json.UnmarshalTokens b [] = p1 at h
  generalize json.UnmarshalStrings b [] = p2 at h
  obtain ⟨tokens, ok1⟩ := p1
  obtain ⟨strTokens, ok2⟩ := p2
  cases ok1 <;> cases ok2 <;> simp at h
  all_goals exact ⟨_, h.symm⟩

/-- C11: `loadFromConfig` never fails; the keys of its mapping are exactly
the trimmed, non-empty entries of the configured list; every key is listed
once, however often the entry occurs; every key maps to the empty origins. -/
theorem loadFromConfig_keys (GetStringSlice : String → List String) (viperKey : String) :
    ∃ m, loadFromConfig GetStringSlice viperKey = .ok m ∧
      (∀ k, k ∈ m.keys ↔ k ≠ "" ∧ ∃ t ∈ GetStringSlice viperKey, strings.TrimSpace t = k) ∧
      m.keys.Nodup ∧
      (∀ k, m.keys.count k ≤ 1) ∧
      (∀ k ∈ m.keys, m.get? k = some []) ∧
      (∀ k, k ∉ m.keys → m.get? k = none) := by
  refine ⟨_, loadFromConfig_eq GetStringSlice viperKey, fun k => ?_, nodup_keys_tokensToMap _,
    fun k => List.nodup_iff_count_le_one.mp (nodup_keys_tokensToMap _) k, fun k hk => ?_,
    fun k hk => (GoMap.not_mem_keys_iff _ k).mp hk⟩
  · rw [mem_keys_tokensToMap]
    constructor
    · rintro ⟨hk, t, ht, htk⟩
      obtain ⟨s, hs, rfl⟩ := List.mem_map.mp ht
      exact ⟨hk, s, hs, htk⟩
    · rintro ⟨hk, s, hs, hsk⟩
      exact ⟨hk, ⟨s, []⟩, List.mem_map.mpr ⟨s, hs, rfl⟩, hsk⟩
  · obtain ⟨o, ho⟩ := (GoMap.mem_keys_iff _ k).mp hk
    obtain ⟨_, pre, t, post, heq, _, hto, _⟩ := (get?_tokensToMap _ k o).mp ho
    have ht : t ∈ (GetStringSlice viperKey).map
        (fun t => ({ Value := t, Origins := [] } : Token)) := by
      rw [heq]
      exact List.mem_append.mpr (Or.inr (List.mem_cons_self t post))
    obtain ⟨s, _, rfl⟩ := List.mem_map.mp ht
    rw [ho, ← hto]

/-- C11, at the configured list `" a"`, `""`, `"a "`, `"  "`, `"b"`. -/
theorem loadFromConfig_keys_witness :
    loadFromConfig (fun _ => [" a", "", "a ", "  ", "b"]) "server.auth"
        = .ok [("a", []), ("b", [])] ∧
      ∃ m, loadFromConfig (fun _ => [" a", "", "a ", "  ", "b"]) "server.auth" = .ok m ∧
        (∀ k, k ∈ m.keys ↔
          k ≠ "" ∧ ∃ t ∈ [" a", "", "a ", "  ", "b"], strings.TrimSpace t = k) ∧
        m.keys.Nodup ∧
        (∀ k, m.keys.count k ≤ 1) ∧
        (∀ k ∈ m.keys, m.get? k = some []) ∧
        (∀ k, k ∉ m.keys → m.get? k = none) :=
  ⟨by rfl, loadFromConfig_keys (fun _ => [" a", "", "a ", "  ", "b"]) "server.auth"⟩

/-- C18: every key of a mapping returned by `parseFromBytes` or by
`loadFromConfig` is non-empty, equals its own trimmed form, and neither
starts nor ends with white space. -/
theorem keys_trimmed (m : TokenMap)
    (h : (∃ source b, parseFromBytes source b = .ok m) ∨
      (∃ GetStringSlice viperKey, loadFromConfig GetStringSlice viperKey = .ok m))
    (k : String) (hk : k ∈ m.keys) :
    k ≠ "" ∧ strings.TrimSpace k = k ∧
      (∀ c, k.data.head? = some c → unicode.IsSpace c = false) ∧
      (∀ c, k.data.getLast? = some c → unicode.IsSpace c = false) := by
  have hm : ∃ tokens, m = tokensToMap tokens := by
    rcases h with ⟨source, b, h1⟩ | ⟨g, key, h1⟩
    · exact parseFromBytes_ok source b m h1
    · rw [loadFromConfig_eq] at h1
      exact ⟨_, (Except.ok.inj h1).symm⟩
  obtain ⟨tokens, rfl⟩ := hm
  obtain ⟨hne, t, _, rfl⟩ := (mem_keys_tokensToMap tokens k).mp hk
  exact ⟨hne, TrimSpace_idempotent _, fun c => (TrimSpace_ends _ c).1,
    fun c => (TrimSpace_ends _ c).2⟩

/-- C18, at the key `tok1` of the mapping parsed from `exampleTokenPayload`,
whose token values are ` tok1 `, `tok2`, `tok1` and a blank one. -/
theorem keys_trimmed_witness :
    parseFromBytes "src" exampleTokenPayload = .ok [("tok1", [" b.com"]), ("tok2", [])] ∧
      ("tok1" ≠ "" ∧ strings.TrimSpace "tok1" = "tok1" ∧
        (∀ c, "tok1".data.head? = some c → unicode.IsSpace c = false) ∧
        (∀ c, "tok1".data.getLast? = some c → unicode.IsSpace c = false)) :=
  ⟨by rfl,
    keys_trimmed [("tok1", [" b.com"]), ("tok2", [])]
      (Or.inl ⟨"src", exampleTokenPayload, by rfl⟩) "tok1" (by decide)⟩

/-! ## More claims about the store -/

/-- C15: the two mappings are independent: `updateC2STokens(m)` leaves every
`GetS2SOrigins(t)` as it was and `updateS2STokens(m)` leaves every
`GetC2SOrigins(t)` as it was. -/
theorem update_frame (s : Service) (m : TokenMap) (t : String) :
    (s.updateC2STokens m).GetS2SOrigins t = s.GetS2SOrigins t ∧
    (s.updateS2STokens m).GetC2SOrigins t = s.GetC2SOrigins t ∧
    (s.updateC2STokens m).s2STokens = s.s2STokens ∧
    (s.updateS2STokens m).c2STokens = s.c2STokens :=
  ⟨rfl, rfl, rfl, rfl⟩

/-- C17: when both initial loads succeed and one of the two mappings is not
empty, `NewService` returns the store that holds exactly the two loaded
mappings and does not generate a token (the outside world is the one left by
the second load); the keys of `GetAllTokens` are the union of the loaded
keys, and a side that was loaded empty finds no token. -/
theorem NewService_no_fallback (ext : Externals σ) (w w1 w2 : σ)
    (c2sTokens s2sTokens : TokenMap)
    (hsec : ext.GetInt "server.server.auth_reload_sec" ≠ 0)
    (h1 : load ext "server.auth" .updateC2STokens
      (ext.GetInt "server.server.auth_reload_sec") w = (.ok c2sTokens, w1))
    (h2 : load ext "server.s2s_auth" .updateS2STokens
      (ext.GetInt "server.server.auth_reload_sec") w1 = (.ok s2sTokens, w2))
    (hne : c2sTokens.len ≠ 0 ∨ s2sTokens.len ≠ 0) :
    NewService ext w = (.ok { c2STokens := c2sTokens, s2STokens := s2sTokens }, w2) ∧
      (∀ t, t ∈ (Service.mk c2sTokens s2sTokens).GetAllTokens.keys ↔
        t ∈ c2sTokens.keys ∨ t ∈ s2sTokens.keys) ∧
      (c2sTokens.len = 0 → ∀ t, (Service.mk c2sTokens s2sTokens).GetC2SOrigins t = ([], false)) ∧
      (s2sTokens.len = 0 →
        ∀ t, (Service.mk c2sTokens s2sTokens).GetS2SOrigins t = ([], false)) := by
  refine ⟨?_, fun t => ?_, fun h0 t => ?_, fun h0 t => ?_⟩
  · have h3 : ¬ (c2sTokens.len = 0 ∧ s2sTokens.len = 0) := fun h => hne.elim (· h.1) (· h.2)
    simp [NewService, hsec, h1, h2, h3]
  · simp only [Service.GetAllTokens]
    rw [GoMap.mem_keys_foldl_set, GoMap.mem_keys_foldl_set]
    simp [GoMap.empty, GoMap.keys]
  · have h3 : c2sTokens = [] := List.length_eq_zero.mp h0
    subst h3
    rfl
  · have h3 : s2sTokens = [] := List.length_eq_zero.mp h0
    subst h3
    rfl

/-- C17, at the inline c2s source `exampleInlineSource` and an unset s2s
source. -/
theorem NewService_no_fallback_witness :
    NewService (exampleExt 5 exampleInlineSource "") ()
        = (.ok { c2STokens := [("tok1", ["a.com"])], s2STokens := [] }, ()) ∧
      (∀ t, t ∈ (Service.mk [("tok1", ["a.com"])] []).GetAllTokens.keys ↔
        t ∈ GoMap.keys ([("tok1", ["a.com"])] : TokenMap) ∨ t ∈ GoMap.keys ([] : TokenMap)) ∧
      (GoMap.len ([("tok1", ["a.com"])] : TokenMap) = 0 →
        ∀ t, (Service.mk [("tok1", ["a.com"])] []).GetC2SOrigins t = ([], false)) ∧
      (GoMap.len ([] : TokenMap) = 0 →
        ∀ t, (Service.mk [("tok1", ["a.com"])] []).GetS2SOrigins t = ([], false)) :=
  NewService_no_fallback (exampleExt 5 exampleInlineSource "") () () ()
    [("tok1", ["a.com"])] [] (by decide) (by rfl) (by rfl) (Or.inl (by decide))

/-! ## The claims about `Preprocess` -/

theorem Preprocess_nil (p : Package Request) (s2sp : S2SPreprocessor) (r : Request) :
    S2SPreprocessor.Preprocess p s2sp none r
      = { fact := none, outcome := .failed "Input fact can\x27t be nil", effects := [] } := rfl

theorem Preprocess_no_object (p : Package Request) (s2sp : S2SPreprocessor) (fact : Fact)
    (r : Request) (h : ∀ d, (stampSource p fact r).get? "device_ctx" ≠ some (.map d)) :
    S2SPreprocessor.Preprocess p s2sp (some fact) r
      = { fact := some (stampSource p fact r), outcome := .returned, effects := [] } := by
  have h0 : S2SPreprocessor.Preprocess p s2sp (some fact) r
      = match (stampSource p fact r).get? "device_ctx" with
        | some (.map deviceCtxObject) =>
          match geoBlock p s2sp deviceCtxObject with
          | .error msg =>
            { fact := some (stampSource p fact r), outcome := .panicked msg, effects := [] }
          | .ok (deviceCtxObject, geoEffects) =>
            { fact := some ((stampSource p fact r).set "device_ctx"
                (.map (uaBlock p s2sp deviceCtxObject).1)),
              outcome := .returned,
              effects := geoEffects ++ (uaBlock p s2sp deviceCtxObject).2 }
        | _ => { fact := some (stampSource p fact r), outcome := .returned, effects := [] } := rfl
  rw [h0]
  cases hc : (stampSource p fact r).get? "device_ctx" with
  | none => rfl
  | some x =>
    cases x with
    | map d => exact absurd hc (h d)
    | _ => rfl

theorem Preprocess_object (p : Package Request) (s2sp : S2SPreprocessor) (fact : Fact)
    (r : Request) (d : GoMap Any)
    (h : (stampSource p fact r).get? "device_ctx" = some (.map d)) :
    S2SPreprocessor.Preprocess p s2sp (some fact) r
      = match geoBlock p s2sp d with
        | .error msg =>
          { fact := some (stampSource p fact r), outcome := .panicked msg, effects := [] }
        | .ok (deviceCtxObject, geoEffects) =>
          { fact := some ((stampSource p fact r).set "device_ctx"
              (.map (uaBlock p s2sp deviceCtxObject).1)),
            outcome := .returned,
            effects := geoEffects ++ (uaBlock p s2sp deviceCtxObject).2 } := by
  have h0 : S2SPreprocessor.Preprocess p s2sp (some fact) r
      = match (stampSource p fact r).get? "device_ctx" with
        | some (.map deviceCtxObject) =>
          match geoBlock p s2sp deviceCtxObject with
          | .error msg =>
            { fact := some (stampSource p fact r), outcome := .panicked msg, effects := [] }
          | .ok (deviceCtxObject, geoEffects) =>
            { fact := some ((stampSource p fact r).set "device_ctx"
                (.map (uaBlock p s2sp deviceCtxObject).1)),
              outcome := .returned,
              effects := geoEffects ++ (uaBlock p s2sp deviceCtxObject).2 }
        | _ => { fact := some (stampSource p fact r), outcome := .returned, effects := [] } := rfl
  rw [h0, h]

theorem stampSource_device_ctx (p : Package Request) (fact : Fact) (r : Request)
    (hip : p.ipKey ≠ "device_ctx") :
    (stampSource p fact r).get? "device_ctx" = fact.get? "device_ctx" := by
  have hs : ("src" : String) ≠ "device_ctx" := by decide
  unfold stampSource
  simp only []
  split
  · rw [GoMap.get?_set_ne _ _ hip, GoMap.get?_set_ne _ _ hs]
  · rw [GoMap.get?_set_ne _ _ hs]

theorem geoBlock_of_present (p : Package Request) (s2sp : S2SPreprocessor) (d : GoMap Any)
    (v : Any) (h : d.get? p.GeoDataKey = some v) : geoBlock p s2sp d = .ok (d, []) := by
  simp [geoBlock, h]

theorem uaBlock_of_present (p : Package Request) (s2sp : S2SPreprocessor) (d : GoMap Any)
    (v : Any) (h : d.get? p.ParsedUaKey = some v) : uaBlock p s2sp d = (d, []) := by
  simp [uaBlock, h]

theorem geoBlock_ok (p : Package Request) (s2sp : S2SPreprocessor) (d d' : GoMap Any)
    (eff : List Effect) (h : geoBlock p s2sp d = .ok (d', eff)) :
    (∀ ua, Effect.uaResolve ua ∉ eff) ∧
      ((d' = d ∧ eff = []) ∨
        (d.get? p.GeoDataKey = none ∧ ∃ g, d' = d.set p.GeoDataKey g)) := by
  unfold geoBlock at h
  cases hg : d.get? p.GeoDataKey with
  | some v =>
    simp [hg] at h
    obtain ⟨rfl, rfl⟩ := h
    simp
  | none =>
    cases hi : d.get? "ip" with
    | none =>
      simp [hg, hi] at h
      obtain ⟨rfl, rfl⟩ := h
      simp
    | some x =>
      cases x with
      | string ip =>
        simp only [hg, hi] at h
        have h1 := Except.ok.inj h
        have h2 := (Prod.mk.inj h1).1
        have h3 := (Prod.mk.inj h1).2
        refine ⟨fun ua hua => ?_, Or.inr ⟨rfl, _, h2.symm⟩⟩
        rw [← h3] at hua
        cases he : (s2sp.geoResolver ip).2 <;> simp [he] at hua
      | _ => simp [hg, hi] at h

theorem uaBlock_cases (p : Package Request) (s2sp : S2SPreprocessor) (d : GoMap Any) :
    (∀ ip, Effect.geoResolve ip ∉ (uaBlock p s2sp d).2) ∧
      ((uaBlock p s2sp d).1 = d ∨
        (d.get? p.ParsedUaKey = none ∧ ∃ u, (uaBlock p s2sp d).1 = d.set p.ParsedUaKey u)) := by
  unfold uaBlock
  cases hg : d.get? p.ParsedUaKey with
  | some v => simp
  | none =>
    cases hi : d.get? p.uaKey with
    | none => simp
    | some x => cases x <;> simp


/-- C12: when the device context of the fact already holds a value under
`geo.GeoDataKey`, that value is still there after `Preprocess` and the geo
resolver is not called; when it already holds a value under
`useragent.ParsedUaKey`, that value is still there and the user agent
resolver is not called. (`ipKey` is not `device_ctx`, so that the address of
the request is not written over the device context.) -/
theorem Preprocess_keeps_provided (p : Package Request) (s2sp : S2SPreprocessor) (fact : Fact)
    (r : Request) (d : GoMap Any) (hip : p.ipKey ≠ "device_ctx")
    (hd : fact.get? "device_ctx" = some (.map d)) :
    (∀ v, d.get? p.GeoDataKey = some v →
      (∃ (fact' : Fact) (d' : GoMap Any), (S2SPreprocessor.Preprocess p s2sp (some fact) r).fact = some fact' ∧
        GoMap.get? fact' "device_ctx" = some (.map d') ∧ GoMap.get? d' p.GeoDataKey = some v) ∧
      ∀ ip, Effect.geoResolve ip ∉ (S2SPreprocessor.Preprocess p s2sp (some fact) r).effects) ∧
    (∀ v, d.get? p.ParsedUaKey = some v →
      (∃ (fact' : Fact) (d' : GoMap Any), (S2SPreprocessor.Preprocess p s2sp (some fact) r).fact = some fact' ∧
        GoMap.get? fact' "device_ctx" = some (.map d') ∧ GoMap.get? d' p.ParsedUaKey = some v) ∧
      ∀ ua, Effect.uaResolve ua ∉ (S2SPreprocessor.Preprocess p s2sp (some fact) r).effects) := by
  have hs : (stampSource p fact r).get? "device_ctx" = some (.map d) := by
    rw [stampSource_device_ctx p fact r hip, hd]
  rw [Preprocess_object p s2sp fact r d hs]
  constructor
  · intro v hv
    rw [geoBlock_of_present p s2sp d v hv]
    obtain ⟨hno, hcase⟩ := uaBlock_cases p s2sp d
    refine ⟨⟨_, (uaBlock p s2sp d).1, rfl, GoMap.get?_set_self _ _ _, ?_⟩, fun ip => ?_⟩
    · rcases hcase with h | ⟨hnone, u, hu⟩
      · rw [h, hv]
      · have hne : p.ParsedUaKey ≠ p.GeoDataKey := by
          intro heq
          rw [heq, hv] at hnone
          exact Option.noConfusion hnone
        rw [hu, GoMap.get?_set_ne _ _ hne, hv]
    · simpa using hno ip
  · intro v hv
    cases hgeo : geoBlock p s2sp d with
    | error msg =>
      exact ⟨⟨_, d, rfl, hs, hv⟩, fun ua => by simp⟩
    | ok res =>
      obtain ⟨d1, e1⟩ := res
      obtain ⟨hno, hcase⟩ := geoBlock_ok p s2sp d d1 e1 hgeo
      have hv1 : d1.get? p.ParsedUaKey = some v := by
        rcases hcase with ⟨h, _⟩ | ⟨hnone, g, hg⟩
        · rw [h, hv]
        · have hne : p.GeoDataKey ≠ p.ParsedUaKey := by
            intro heq
            rw [heq, hv] at hnone
            exact Option.noConfusion hnone
          rw [hg, GoMap.get?_set_ne _ _ hne, hv]
      have hua := uaBlock_of_present p s2sp d1 v hv1
      refine ⟨⟨_, (uaBlock p s2sp d1).1, rfl, GoMap.get?_set_self _ _ _, ?_⟩, fun ua => ?_⟩
      · rw [hua]
        exact hv1
      · simp only [hua, List.append_nil]
        exact hno ua


/-- C12, at a fact whose device context holds both results already: the
fact is returned with `src` and the address of the request added, the
device context is as it was, and no resolver is called. -/
theorem Preprocess_keeps_provided_witness :
    (S2SPreprocessor.Preprocess examplePackage exampleS2SPreprocessor
        (some exampleProvidedFact) "10.0.0.1").effects = [] ∧
      (∀ v, GoMap.get? ([("ip", .string "1.2.3.4"), ("location", .string "given"),
          ("user_agent", .string "ua"), ("parsed_ua", .string "given")] : GoMap Any)
            examplePackage.GeoDataKey = some v →
        (∃ (fact' : Fact) (d' : GoMap Any),
          (S2SPreprocessor.Preprocess examplePackage exampleS2SPreprocessor
            (some exampleProvidedFact) "10.0.0.1").fact = some fact' ∧
          GoMap.get? fact' "device_ctx" = some (.map d') ∧
          GoMap.get? d' examplePackage.GeoDataKey = some v) ∧
        ∀ ip, Effect.geoResolve ip ∉
          (S2SPreprocessor.Preprocess examplePackage exampleS2SPreprocessor
            (some exampleProvidedFact) "10.0.0.1").effects) ∧
      (∀ v, GoMap.get? ([("ip", .string "1.2.3.4"), ("location", .string "given"),
          ("user_agent", .string "ua"), ("parsed_ua", .string "given")] : GoMap Any)
            examplePackage.ParsedUaKey = some v →
        (∃ (fact' : Fact) (d' : GoMap Any),
          (S2SPreprocessor.Preprocess examplePackage exampleS2SPreprocessor
            (some exampleProvidedFact) "10.0.0.1").fact = some fact' ∧
          GoMap.get? fact' "device_ctx" = some (.map d') ∧
          GoMap.get? d' examplePackage.ParsedUaKey = some v) ∧
        ∀ ua, Effect.uaResolve ua ∉
          (S2SPreprocessor.Preprocess examplePackage exampleS2SPreprocessor
            (some exampleProvidedFact) "10.0.0.1").effects) :=
  ⟨by rfl,
    Preprocess_keeps_provided examplePackage exampleS2SPreprocessor exampleProvidedFact
      "10.0.0.1" _ (by decide) (by rfl)⟩

/-- An error is returned exactly for the nil fact. -/
theorem Preprocess_failed_iff (p : Package Request) (s2sp : S2SPreprocessor)
    (fact : Option Fact) (r : Request) :
    (∃ err, (S2SPreprocessor.Preprocess p s2sp fact r).outcome = .failed err) ↔ fact = none := by
  constructor
  · rintro ⟨err, h⟩
    cases fact with
    | none => rfl
    | some fact =>
      exfalso
      by_cases hobj : ∃ d, (stampSource p fact r).get? "device_ctx" = some (.map d)
      · obtain ⟨d, hd⟩ := hobj
        rw [Preprocess_object p s2sp fact r d hd] at h
        cases hgeo : geoBlock p s2sp d with
        | error msg => simp [hgeo] at h
        | ok res => simp [hgeo] at h
      · rw [Preprocess_no_object p s2sp fact r (fun d hd => hobj ⟨d, hd⟩)] at h
        simp at h
  · rintro rfl
    exact ⟨_, rfl⟩

/-- What `Preprocess` returns when it returns a fact: the fact of the caller
with `src` set to `s2s` and, when the request has an address, `ipKey` set to
it (`ipKey` is not `src`). -/
theorem Preprocess_returned (p : Package Request) (s2sp : S2SPreprocessor) (fact : Fact)
    (r : Request) (hsrc : p.ipKey ≠ "src")
    (hret : (S2SPreprocessor.Preprocess p s2sp (some fact) r).outcome = .returned) :
    ∃ fact' : Fact, (S2SPreprocessor.Preprocess p s2sp (some fact) r).fact = some fact' ∧
      GoMap.get? fact' "src" = some (.string "s2s") ∧
      (p.extractIp r ≠ "" → GoMap.get? fact' p.ipKey = some (.string (p.extractIp r))) := by
  have hs : ("device_ctx" : String) ≠ "src" := by decide
  have h1 : (stampSource p fact r).get? "src" = some (.string "s2s") := by
    unfold stampSource
    simp only []
    split
    · rw [GoMap.get?_set_ne _ _ hsrc, GoMap.get?_set_self]
    · rw [GoMap.get?_set_self]
  have h2 : p.extractIp r ≠ "" →
      (stampSource p fact r).get? p.ipKey = some (.string (p.extractIp r)) := by
    intro hip
    unfold stampSource
    simp only [hip, ne_eq, not_false_eq_true, if_true]
    rw [GoMap.get?_set_self]
  by_cases hobj : ∃ d, (stampSource p fact r).get? "device_ctx" = some (.map d)
  · obtain ⟨d, hd⟩ := hobj
    rw [Preprocess_object p s2sp fact r d hd] at hret ⊢
    cases hgeo : geoBlock p s2sp d with
    | error msg => simp [hgeo] at hret
    | ok res =>
      obtain ⟨d1, e1⟩ := res
      refine ⟨_, rfl, ?_, fun hip => ?_⟩
      · rw [GoMap.get?_set_ne _ _ hs]
        exact h1
      · have hne : ("device_ctx" : String) ≠ p.ipKey := by
          intro heq
          have h3 := h2 hip
          rw [← heq, hd] at h3
          cases h3
        rw [GoMap.get?_set_ne _ _ hne]
        exact h2 hip
  · rw [Preprocess_no_object p s2sp fact r (fun d hd => hobj ⟨d, hd⟩)]
    exact ⟨_, rfl, h1, h2⟩

/-- C16 fails at the non-nil fact `exampleBoolIpFact`: `Preprocess` neither
returns the fact nor an error, it panics at `ip.(string)` after it has
written `src` and the address of the request. -/
theorem Preprocess_does_not_return :
    (S2SPreprocessor.Preprocess examplePackage exampleS2SPreprocessor
        (some exampleBoolIpFact) "10.0.0.1").outcome
        = .panicked "interface conversion: interface \x7b\x7d is bool, not string" ∧
      (S2SPreprocessor.Preprocess examplePackage exampleS2SPreprocessor
        (some exampleBoolIpFact) "10.0.0.1").outcome ≠ .returned ∧
      (S2SPreprocessor.Preprocess examplePackage exampleS2SPreprocessor
        (some exampleBoolIpFact) "10.0.0.1").fact
        = some [("event", .string "click"), ("device_ctx", .map [("ip", .bool true)]),
            ("src", .string "s2s"), ("source_ip", .string "10.0.0.1")] :=
  ⟨by rfl, by decide, by rfl⟩

/-- C19 fails at the fact `exampleNumberIpFact`, whose device context holds a
number under `ip` and nothing under `geo.GeoDataKey`: the type assertion
`ip.(string)` panics, while a user agent that is not a string is passed
over. -/
theorem Preprocess_panics :
    (S2SPreprocessor.Preprocess examplePackage exampleS2SPreprocessor
        (some exampleNumberIpFact) "").outcome
        = .panicked "interface conversion: interface \x7b\x7d is float64, not string" ∧
      (S2SPreprocessor.Preprocess examplePackage exampleS2SPreprocessor
        (some [("device_ctx", .map [("user_agent", .float64 "123")])]) "").outcome
        = .returned :=
  ⟨by rfl, by rfl⟩

/-- `Preprocess` panics exactly when the device context is an object without
`geo.GeoDataKey` whose `ip` is not a string. -/
theorem Preprocess_panicked_iff (p : Package Request) (s2sp : S2SPreprocessor) (fact : Fact)
    (r : Request) :
    (∃ msg, (S2SPreprocessor.Preprocess p s2sp (some fact) r).outcome = .panicked msg) ↔
      ∃ (d : GoMap Any) (v : Any),
        (stampSource p fact r).get? "device_ctx" = some (.map d) ∧
        GoMap.get? d p.GeoDataKey = none ∧ GoMap.get? d "ip" = some v ∧
        ∀ ip, v ≠ .string ip := by
  constructor
  · rintro ⟨msg, h⟩
    by_cases hobj : ∃ d, (stampSource p fact r).get? "device_ctx" = some (.map d)
    · obtain ⟨d, hd⟩ := hobj
      rw [Preprocess_object p s2sp fact r d hd] at h
      refine ⟨d, ?_⟩
      cases hg : GoMap.get? d p.GeoDataKey with
      | some v => simp [geoBlock, hg] at h
      | none =>
        cases hi : GoMap.get? d "ip" with
        | none => simp [geoBlock, hg, hi] at h
        | some x =>
          refine ⟨x, hd, rfl, rfl, fun ip hx => ?_⟩
          subst hx
          simp [geoBlock, hg, hi] at h
    · rw [Preprocess_no_object p s2sp fact r (fun d hd => hobj ⟨d, hd⟩)] at h
      simp at h
  · rintro ⟨d, v, hd, hg, hi, hv⟩
    rw [Preprocess_object p s2sp fact r d hd]
    cases v with
    | string ip => exact absurd rfl (hv ip)
    | _ => simp [geoBlock, hg, hi]

/-! ## The claim about `RollingWriterProxy` -/

namespace logging

theorem writtenSince_append (cs ds : List LoggerCall) (w : Bool) :
    writtenSince (cs ++ ds) w = writtenSince ds (writtenSince cs w) := by
  induction cs generalizing w with
  | nil => rfl
  | cons c cs ih => cases c <;> simp [writtenSince, ih]

theorem rotatesOnlyNonEmpty_append (cs ds : List LoggerCall) (w : Bool) :
    rotatesOnlyNonEmpty (cs ++ ds) w
      = (rotatesOnlyNonEmpty cs w && rotatesOnlyNonEmpty ds (writtenSince cs w)) := by
  induction cs generalizing w with
  | nil => simp [rotatesOnlyNonEmpty, writtenSince]
  | cons c cs ih => cases c <;> simp [rotatesOnlyNonEmpty, writtenSince, ih, Bool.and_assoc]

/-- Without rotation on close, one operation keeps the rule: the calls made
so far obey it, and a positive `records` means that a record has been
written since the last `Rotate`. -/
theorem step_keeps_rule (rwp : RollingWriterProxy) (op : Op) (h : rwp.rotateOnClose = false)
    (h1 : rotatesOnlyNonEmpty rwp.lWriter false = true)
    (h2 : 0 < rwp.records → writtenSince rwp.lWriter false = true) :
    (rwp.step op).rotateOnClose = false ∧
      rotatesOnlyNonEmpty (rwp.step op).lWriter false = true ∧
      (0 < (rwp.step op).records → writtenSince (rwp.step op).lWriter false = true) := by
  cases op with
  | Write p =>
    simp [RollingWriterProxy.step, RollingWriterProxy.Write, h, rotatesOnlyNonEmpty_append,
      writtenSince_append, h1, rotatesOnlyNonEmpty, writtenSince]
  | Tick =>
    by_cases hr : 0 < rwp.records
    · simp [RollingWriterProxy.step, RollingWriterProxy.tick, h, hr, rotatesOnlyNonEmpty_append,
        h1, h2 hr, rotatesOnlyNonEmpty]
    · simp [RollingWriterProxy.step, RollingWriterProxy.tick, h, hr, h1]
  | Close =>
    simp only [RollingWriterProxy.step, RollingWriterProxy.Close, h, Bool.false_eq_true,
      if_false, rotatesOnlyNonEmpty_append, writtenSince_append, h1, rotatesOnlyNonEmpty,
      writtenSince, Bool.and_self, true_and]
    exact h2

/-- The ticker alone obeys the rule: without rotation on close, every
sequence of operations on a new proxy calls `Rotate` only after a record has
been written since the last `Rotate`. -/
theorem ticker_rotates_only_non_empty (config : Config) (h : config.RotateOnClose = false)
    (rwp : RollingWriterProxy) (rotation : Int)
    (hnew : NewRollingWriter config = .ok (rwp, rotation)) (ops : List Op) :
    rotatesOnlyNonEmpty (rwp.run ops).lWriter false = true := by
  have key : ∀ (ops : List Op) (rwp : RollingWriterProxy), rwp.rotateOnClose = false →
      rotatesOnlyNonEmpty rwp.lWriter false = true →
      (0 < rwp.records → writtenSince rwp.lWriter false = true) →
      rotatesOnlyNonEmpty (rwp.run ops).lWriter false = true := by
    intro ops
    induction ops with
    | nil => intro rwp _ h1 _; exact h1
    | cons op ops ih =>
      intro rwp h0 h1 h2
      obtain ⟨h3, h4, h5⟩ := step_keeps_rule rwp op h0 h1 h2
      exact ih (rwp.step op) h3 h4 h5
  have hrwp : rwp = { lWriter := [], records := 0, rotateOnClose := config.RotateOnClose } := by
    unfold NewRollingWriter at hnew
    by_cases hr : minutes (if config.RotationMin = 0 then twentyFourHoursInMinutes
        else config.RotationMin) ≤ 0
    · simp [hr] at hnew
    · simp only [hr, if_false] at hnew
      exact (Prod.mk.inj (Except.ok.inj hnew)).1.symm
  subst hrwp
  exact key ops _ h rfl (fun h0 => absurd h0 (by simp))

/-- C13 fails with rotation on close: `Close` on a new proxy calls `Rotate`
though no record has been written, and after `Write`, `Close` a tick calls
`Rotate` a second time for the one record. -/
theorem Close_rotates_empty_file :
    NewRollingWriter (exampleConfig true)
        = .ok ({ lWriter := [], rotateOnClose := true, records := 0 }, 86400000000000) ∧
      (RollingWriterProxy.run { lWriter := [], rotateOnClose := true, records := 0 }
        [.Close]).lWriter = [.Rotate, .Close] ∧
      rotatesOnlyNonEmpty (RollingWriterProxy.run
        { lWriter := [], rotateOnClose := true, records := 0 } [.Close]).lWriter false = false ∧
      (RollingWriterProxy.run { lWriter := [], rotateOnClose := true, records := 0 }
        [.Write "a", .Close, .Tick]).lWriter = [.Write "a", .Rotate, .Close, .Rotate] ∧
      rotatesOnlyNonEmpty (RollingWriterProxy.run
        { lWriter := [], rotateOnClose := true, records := 0 }
        [.Write "a", .Close, .Tick]).lWriter false = false := by
  decide

end logging

end EventNative
